import Mathlib

/-!
Verification development for the pollux credential-pool reverse proxy.

The Rust sources are shallowly embedded: pure functions become Lean
functions, the single-writer coordinator actor becomes an explicit step
function on a state type, fallible code returns Option or Except, and
machine integers are modelled as Int/Nat (no overflow is relevant at the
sizes involved).  Instants and durations are modelled in whole seconds as
Int.  Library calls whose exact behaviour is irrelevant to the properties
(RFC 3339 parsing, JSON (de)serialisation, base64, the JWT payload parser)
are abstracted: either the already-parsed value is carried in the model, or
the parser is a function parameter that the theorems quantify over.

Several files of the repository are referenced by the sources but are not
present in the source tree (config.rs, router.rs, google_oauth/credentials.rs,
api/gemini_client.rs, service/credential_manager.rs, and the IsRetryable
impl in error.rs).  Definitions for those parts carry a doc comment starting
with "Modelled from the spec:" and follow the specification text.
-/

namespace Pollux

/-! ## Credentials (data model) -/

/-- Modelled from the spec: `src/google_oauth/credentials.rs` is absent from
the source tree.  Fields follow spec section 3 (optional email, project_id,
non-empty refresh_token, optional access_token, expiry as a UTC instant)
plus the legacy columns `client_id`, `client_secret`, `scopes` that
`db/sqlite.rs` reads from the same struct.  `expiry` is seconds since epoch. -/
structure GoogleCredential where
  email : Option String
  client_id : String
  client_secret : String
  project_id : String
  scopes : Option (List String)
  refresh_token : String
  access_token : Option String
  expiry : Int
  deriving Repr, DecidableEq

/-- Modelled from the spec: `AssignedCredential` (spec section 3), the
snapshot returned to a handler by the credential manager
(`service/credential_manager.rs`, absent from the source tree). -/
structure AssignedCredential where
  id : Nat
  project_id : String
  access_token : String
  target_model : String
  deriving Repr, DecidableEq

/-! ## Errors (`src/error.rs`) -/

/-- One entry of the Gemini error body's `details` array.  In the source the
body's extra fields are a raw JSON map; the model keeps only what
`quota_reset_delay` reads: `metadata.quotaResetTimeStamp`, already parsed
from RFC 3339 into seconds since epoch (`none` both when the field is
absent and when `DateTime::parse_from_rfc3339` fails). -/
structure GeminiErrorDetail where
  quotaResetTimeStamp : Option Int
  deriving Repr, DecidableEq

/-- `GeminiErrorBody` from `src/error.rs`.  `details` is `none` when the
extra map has no `details` key or it is not an array. -/
structure GeminiErrorBody where
  code : Nat
  message : String
  status : String
  details : Option (List GeminiErrorDetail)
  deriving Repr, DecidableEq

/-- `GeminiError` from `src/error.rs`. -/
structure GeminiError where
  error : GeminiErrorBody
  deriving Repr, DecidableEq

/-- `NexusError` from `src/error.rs`.  Payloads that the embedded code never
inspects are kept as strings. -/
inductive NexusError where
  | urlParse (msg : String)
  | reqwest (msg : String)
  | json (msg : String)
  | missingAccessToken
  | missingEmailInUserinfo
  | oauth2Token (msg : String)
  | oauth2Server (error : String)
  | noAvailableCredential
  | ractorError (msg : String)
  | databaseError (msg : String)
  | upstreamStatus (code : Nat)
  | geminiServerError (e : GeminiError)
  deriving Repr, DecidableEq

/-- `ApiErrorBody` from `src/error.rs`: the `{"code": .., "message": ..}`
object placed under the `error` key of every error response body. -/
structure ApiErrorBody where
  code : String
  message : String
  deriving Repr, DecidableEq

/-- `StatusCode::from_u16(c).unwrap_or(StatusCode::BAD_REQUEST)`: the http
crate accepts 100..999, anything else falls back to 400. -/
def statusFromU16OrBadRequest (c : Nat) : Nat :=
  if 100 ≤ c ∧ c ≤ 999 then c else 400

/-- `impl IntoResponse for NexusError` in `src/error.rs`: the HTTP status
and the `error` body object chosen for each error. -/
def NexusError.intoResponse : NexusError → Nat × ApiErrorBody
  | .geminiServerError g =>
      (statusFromU16OrBadRequest g.error.code,
       { code := g.error.status, message := g.error.message })
  | .databaseError _ =>
      (500, { code := "INTERNAL_ERROR", message := "An internal server error occurred." })
  | .ractorError _ =>
      (500, { code := "INTERNAL_ERROR", message := "An internal server error occurred." })
  | .json _ =>
      (401, { code := "UNAUTHORIZED", message := "Authentication error." })
  | .oauth2Token _ =>
      (401, { code := "UNAUTHORIZED", message := "Authentication error." })
  | .oauth2Server _ =>
      (401, { code := "UNAUTHORIZED", message := "Authentication error." })
  | .missingAccessToken =>
      (401, { code := "UNAUTHORIZED", message := "Authentication error." })
  | .missingEmailInUserinfo =>
      (401, { code := "UNAUTHORIZED", message := "Authentication error." })
  | .noAvailableCredential =>
      (503, { code := "NO_CREDENTIAL", message := "No available credentials to process the request." })
  | .reqwest _ =>
      (502, { code := "BAD_GATEWAY", message := "Upstream service is unavailable." })
  | .urlParse _ =>
      (502, { code := "BAD_GATEWAY", message := "Upstream service is unavailable." })
  | .upstreamStatus code =>
      let pair : String × String :=
        if code = 429 then ("RATE_LIMIT", "Upstream rate limit exceeded.")
        else if code = 401 then ("UNAUTHORIZED", "Upstream authentication failed.")
        else if code = 403 then ("FORBIDDEN", "Upstream permission denied.")
        else if code = 404 then ("NOT_FOUND", "Upstream resource not found.")
        else ("UPSTREAM_ERROR", "An upstream error occurred.")
      (code, { code := pair.1, message := pair.2 })

/-! ## Quota-reset parsing (`GeminiError::quota_reset_delay`) -/

/-- `GeminiError::quota_reset_delay` from `src/error.rs`: iterate the
`details` array, keep the parsed `metadata.quotaResetTimeStamp` values, keep
the strictly positive differences to `now`, and return the first one (as
seconds).  Returns `none` when `details` is absent, when no entry parses, or
when no parsed timestamp lies strictly in the future. -/
def GeminiError.quota_reset_delay (e : GeminiError) (now : Int) : Option Int :=
  match e.error.details with
  | none => none
  | some ds =>
      ((ds.filterMap (fun d => d.quotaResetTimeStamp)).filterMap
        (fun ts => if 0 < ts - now then some (ts - now) else none)).head?

/-- Modelled from the spec: the rate-limit report path lives in
`api/gemini_client.rs`, absent from the source tree.  Spec section 7: on a
429 the cooldown is `quota_reset_delay` when present, else a default backoff
of 60 s. -/
def rateLimitCooldown (e : GeminiError) (now : Int) : Int :=
  (e.quota_reset_delay now).getD 60

/-- The cooldown exactly as the claim words it: `max(0, ts - now)` for the
timestamp in the body when one is present, else the 60 s default.  Written
from the spec text, to be compared with `rateLimitCooldown`. -/
def claimQuotaCooldown (e : GeminiError) (now : Int) : Int :=
  match e.error.details with
  | none => 60
  | some ds =>
      match (ds.filterMap (fun d => d.quotaResetTimeStamp)).head? with
      | none => 60
      | some ts => max 0 (ts - now)

/-! ## Inbound auth (`src/middleware/auth.rs`) -/

/-- `str::trim`: drop whitespace from both ends.  (List-based so that the
kernel can evaluate it; agrees with `String.trim` on these inputs.) -/
def strTrim (s : String) : String :=
  ⟨((s.data.dropWhile Char.isWhitespace).reverse.dropWhile Char.isWhitespace).reverse⟩

/-- `str::starts_with` / the test part of `str::strip_prefix`. -/
def strStartsWith (s p : String) : Bool :=
  p.data.isPrefixOf s.data

/-- Drop the first `n` characters; `strip_prefix` with a 7-character prefix
is `strDrop s 7` guarded by `strStartsWith`. -/
def strDrop (s : String) (n : Nat) : String :=
  ⟨s.data.drop n⟩

/-- ASCII lower-casing of one character (used only by the claim-side
case-insensitive scheme match; the scheme is ASCII). -/
def asciiLower (c : Char) : Char :=
  if 'A' ≤ c ∧ c ≤ 'Z' then Char.ofNat (c.toNat + 32) else c

/-- ASCII lower-casing of a string. -/
def strLower (s : String) : String :=
  ⟨s.data.map asciiLower⟩

/-- `ensure_authorized` from `src/middleware/auth.rs`.  Header lookup and
form-urlencoded query parsing are abstracted: `xGoogApiKey` and `auth` are
the values of the `x-goog-api-key` and `authorization` headers (when present
and valid UTF-8), `queryPairs` the decoded key/value pairs of the query
string (when a query string is present).  The result is `Except.error 401`
exactly when the source returns the `StatusCode::UNAUTHORIZED` response. -/
def ensure_authorized (xGoogApiKey : Option String) (auth : Option String)
    (queryPairs : Option (List (String × String))) (expected : String) :
    Except Nat Unit :=
  let headerOk : Bool :=
    match xGoogApiKey with
    | some hv => hv == expected
    | none => false
  let bearerOk : Bool :=
    match auth with
    | some a =>
        let a := strTrim a
        if strStartsWith a "Bearer " then strDrop a 7 == expected
        else if strStartsWith a "bearer " then strDrop a 7 == expected
        else false
    | none => false
  let queryOk : Bool :=
    match queryPairs with
    | some ps => ps.any (fun kv => kv.1 == "key" && kv.2 == expected)
    | none => false
  if headerOk || bearerOk || queryOk then .ok () else .error 401

/-- The authorisation predicate exactly as the claim words it (Bearer scheme
matched case-insensitively).  Written from the spec text, to be compared
with `ensure_authorized`. -/
def claimAuthorized (xGoogApiKey : Option String) (auth : Option String)
    (queryPairs : Option (List (String × String))) (expected : String) : Prop :=
  xGoogApiKey = some expected ∨
  (∃ a, auth = some a ∧ strLower ⟨(strTrim a).data.take 7⟩ = "bearer " ∧
    strDrop (strTrim a) 7 = expected) ∨
  (∃ ps, queryPairs = some ps ∧ ("key", expected) ∈ ps)

instance (x : Option String) (a : Option String) (q : Option (List (String × String)))
    (e : String) : Decidable (claimAuthorized x a q e) := by
  unfold claimAuthorized
  infer_instance

/-! ## Credential store (`src/db/sqlite.rs`, `src/db/schema.rs`)

The SQLite table is modelled as a list of typed rows plus the AUTOINCREMENT
counter.  The two text columns that hold serialised values (`expiry` as
RFC 3339, `scopes` as a JSON array) are modelled by the value itself:
`DateTime::to_rfc3339` / `parse_from_rfc3339` and `serde_json::to_string` /
`from_str` on `Vec<String>` are exact round-trips, which is also the
allowance the round-trip claim makes. -/

/-- `DbCredential` as read back by `CredentialsStorage::row_to_model`
(`src/db/sqlite.rs`), one row of the `credentials` table. -/
structure DbCredential where
  id : Nat
  email : Option String
  client_id : String
  client_secret : String
  project_id : String
  scopes : Option (List String)
  refresh_token : String
  access_token : Option String
  expiry : Int
  status : Bool
  deriving Repr, DecidableEq

/-- The credentials table: its rows and the next AUTOINCREMENT id. -/
structure CredStore where
  rows : List DbCredential
  nextId : Nat
  deriving Repr, DecidableEq

/-- The row written by `upsert`/`update_by_id`: every non-id column comes
from the credential and the status flag. -/
def storedRow (c : GoogleCredential) (status : Bool) (id : Nat) : DbCredential :=
  { id := id, email := c.email, client_id := c.client_id,
    client_secret := c.client_secret, project_id := c.project_id,
    scopes := c.scopes, refresh_token := c.refresh_token,
    access_token := c.access_token, expiry := c.expiry, status := status }

/-- `CredentialsStorage::upsert`: `INSERT .. ON CONFLICT(project_id) DO
UPDATE` (the conflicting row keeps its id, every other column is
overwritten; otherwise a fresh row gets the next id), then
`SELECT id .. WHERE project_id = ?` (`none` models the `fetch_one` error
when no row matches, which cannot happen right after the insert). -/
def CredStore.upsert (st : CredStore) (c : GoogleCredential) (status : Bool) :
    CredStore × Option Nat :=
  let conflict := st.rows.any (fun r => r.project_id == c.project_id)
  let st' : CredStore :=
    if conflict then
      let rows := st.rows.map fun r =>
        if r.project_id == c.project_id then storedRow c status r.id else r
      { st with rows := rows }
    else
      { rows := st.rows ++ [storedRow c status st.nextId], nextId := st.nextId + 1 }
  (st', (st'.rows.find? (fun r => r.project_id == c.project_id)).map (fun r => r.id))

/-- `CredentialsStorage::get_by_id` (`fetch_one` then `row_to_model`);
`none` models the `NotFound` error. -/
def CredStore.get_by_id (st : CredStore) (id : Nat) : Option DbCredential :=
  st.rows.find? (fun r => r.id == id)

/-- `CredentialsStorage::set_status`: update only the status column of the
row with the given id. -/
def CredStore.set_status (st : CredStore) (id : Nat) (status : Bool) : CredStore :=
  let rows := st.rows.map fun r => if r.id == id then { r with status := status } else r
  { st with rows := rows }

/-- `CredentialsStorage::update_by_id`: overwrite every column but the id. -/
def CredStore.update_by_id (st : CredStore) (id : Nat) (c : GoogleCredential)
    (status : Bool) : CredStore :=
  let rows := st.rows.map fun r => if r.id == id then storedRow c status id else r
  { st with rows := rows }

/-- `CredentialsStorage::list_active`: every row with status 1.  (The SQL
orders by id; the model keeps row order, which coincides under the
well-formedness used here and is irrelevant to membership claims.) -/
def CredStore.list_active (st : CredStore) : List DbCredential :=
  st.rows.filter (fun r => r.status)

/-- Well-formedness the schema guarantees: ids are unique, below the
AUTOINCREMENT counter, and `project_id` is UNIQUE. -/
def CredStore.WF (st : CredStore) : Prop :=
  (st.rows.map (fun r => r.id)).Nodup ∧
  (∀ r ∈ st.rows, r.id < st.nextId) ∧
  (st.rows.map (fun r => r.project_id)).Nodup

instance (st : CredStore) : Decidable st.WF := by
  unfold CredStore.WF
  infer_instance

/-! ## JSON values and `attach_email_from_id_token`
(`src/handlers/google_oauth.rs`) -/

/-- A `serde_json::Value`.  Numbers are irrelevant to the embedded code and
carried as `Int`. -/
inductive Json where
  | null
  | bool (b : Bool)
  | num (n : Int)
  | str (s : String)
  | arr (items : List Json)
  | obj (fields : List (String × Json))

/-- `Value::get(key)`: field lookup, `none` on non-objects. -/
def Json.get : Json → String → Option Json
  | .obj fields, k => (fields.find? (fun f => f.1 == k)).map (fun f => f.2)
  | _, _ => none

/-- `Value::as_str`. -/
def Json.asStr : Json → Option String
  | .str s => some s
  | _ => none

/-- `Map::insert` through `as_object_mut`: replace the first binding of the
key, else append; non-objects are left unchanged (in the source that case is
unreachable because `get` already returned `none` on them). -/
def Json.insertField : Json → String → Json → Json
  | .obj fields, k, v =>
      if fields.any (fun f => f.1 == k) then
        .obj (fields.map (fun f => if f.1 == k then (k, v) else f))
      else
        .obj (fields ++ [(k, v)])
  | j, _, _ => j

/-- Split a character list at every occurrence of `sep` (the semantics of
Rust's `str::split(sep)`; list-based so the kernel can evaluate it). -/
def splitCharList (sep : Char) : List Char → List (List Char)
  | [] => [[]]
  | c :: rest =>
      let r := splitCharList sep rest
      if c == sep then [] :: r
      else
        match r with
        | h :: t => (c :: h) :: t
        | [] => [[c]]

/-- The segments of `str::split('.')` over a string. -/
def splitDots (s : String) : List String :=
  (splitCharList '.' s.data).map (fun l => ⟨l⟩)

/-- `attach_email_from_id_token` from `src/handlers/google_oauth.rs`.  The
two library decoders are parameters: `b64decode` stands for
`URL_SAFE_NO_PAD.decode` (bytes on success), `parseJson` for
`serde_json::from_slice`.  Every theorem about this function quantifies over
them, so nothing depends on their implementation. -/
def attach_email_from_id_token (b64decode : String → Option (List Nat))
    (parseJson : List Nat → Option Json) (tokenValue : Json) : Json :=
  match (tokenValue.get "id_token").bind Json.asStr with
  | none => tokenValue
  | some idToken =>
    match (splitDots idToken)[1]? with
    | none => tokenValue
    | some payloadB64 =>
      match b64decode payloadB64 with
      | none => tokenValue
      | some decoded =>
        match parseJson decoded with
        | none => tokenValue
        | some payloadJson =>
          match (payloadJson.get "email").bind Json.asStr with
          | none => tokenValue
          | some email => tokenValue.insertField "email" (.str email)

/-! ## Retry policy and refresh jobs (`src/types/job.rs`,
`src/google_oauth/service.rs`) -/

/-- The `backon::ExponentialBuilder` configuration: the builder calls made
in `JobInstruction::execute` and in `default_retry_policy`
(`src/google_oauth/service.rs`) — delays in seconds. -/
structure RetryPolicy where
  minDelay : Nat
  maxDelay : Nat
  maxTimes : Nat
  jitter : Bool
  deriving Repr, DecidableEq

/-- The policy built in `JobInstruction::execute` (`src/types/job.rs`):
min 1 s, max 3 s, `with_max_times(3)`, jittered.  `default_retry_policy` in
`src/google_oauth/service.rs` is identical. -/
def jobRetryPolicy : RetryPolicy :=
  { minDelay := 1, maxDelay := 3, maxTimes := 3, jitter := true }

/-- Modelled from the spec: the `IsRetryable` impl for `NexusError` is
referenced by `src/google_oauth/service.rs` but absent from `src/error.rs`.
Spec section 7: transport (`Reqwest`) errors and upstream 5xx statuses are
retryable; everything else (notably `Oauth2Server` and JSON parse errors)
is not. -/
def NexusError.is_retryable : NexusError → Bool
  | .reqwest _ => true
  | .upstreamStatus code => 500 ≤ code && code ≤ 599
  | _ => false

/-- `backon::Retryable::retry(..).when(p)`: call attempt `i`, return on
success; on a failure that `p` accepts, consume one of the remaining
retries (second argument) and try again; otherwise return the failure.  The
second component of the result counts the calls made so far (`i` calls
before entry). -/
def retryGo {E A : Type} (p : E → Bool) (calls : Nat → Except E A) :
    Nat → Nat → Except E A × Nat
  | i, 0 => (calls i, i + 1)
  | i, r + 1 =>
      match calls i with
      | .ok a => (.ok a, i + 1)
      | .error e => if p e then retryGo p calls (i + 1) r else (.error e, i + 1)

/-- A full retried run: first call is attempt 0, at most
`policy.maxTimes` retries after it. -/
def retryRun {E A : Type} (policy : RetryPolicy) (p : E → Bool)
    (calls : Nat → Except E A) : Except E A × Nat :=
  retryGo p calls 0 policy.maxTimes

/-- `refresh_inner` (`src/google_oauth/service.rs`): the retried
token-endpoint call, then (outside the retry) serialise the payload, attach
the email from the id_token, and `update_credential`.  The token endpoint
and the credential update are oracles; the run returns the updated
credential and the number of token-endpoint calls made. -/
def refreshInner (policy : RetryPolicy) (tokenCalls : Nat → Except NexusError Json)
    (updateCredential : GoogleCredential → Json → Except NexusError GoogleCredential)
    (cred : GoogleCredential) : Except NexusError GoogleCredential × Nat :=
  match retryRun policy NexusError.is_retryable tokenCalls with
  | (.ok payload, n) => (updateCredential cred payload, n)
  | (.error e, n) => (.error e, n)

/-- `JobInstruction` (`src/types/job.rs`). -/
inductive JobInstruction where
  | maintain (id : Nat) (cred : GoogleCredential)
  | onboard (cred : GoogleCredential)
  deriving Repr, DecidableEq

/-- `RefreshOutcome` (`src/types/job.rs`): the pipeline's result channel
payload.  `success` carries the instruction with its mutated credential. -/
inductive RefreshOutcome where
  | success (job : JobInstruction)
  | failed (job : JobInstruction) (err : NexusError)
  deriving Repr, DecidableEq

/-- The network/parse oracles `JobInstruction::execute` runs against:
successive token-endpoint calls, the credential update from the token
payload, successive `loadCodeAssist` calls, and the
`LoadCodeAssistResponse` parse of its JSON (`some (some p)` = parses and
carries `cloudaicompanion_project = p`). -/
structure ExecEnv where
  tokenCalls : Nat → Except NexusError Json
  updateCredential : GoogleCredential → Json → Except NexusError GoogleCredential
  loadCalls : Nat → Except NexusError Json
  parseLoadResp : Json → Option (Option String)

/-- `JobInstruction::execute` (`src/types/job.rs`): `Maintain` runs
`refresh_inner` under the job retry policy; `Onboard` runs `refresh_inner`,
fails with a `RactorError` when the refreshed credential still has no
access token, then calls `load_code_assist_with_retry` (its own retried
run, `src/google_oauth/service.rs`), parses the response, and adopts
`cloudaicompanion_project` when present.  Returns the mutated credential
together with (token-endpoint calls, loadCodeAssist calls). -/
def jobExecute (env : ExecEnv) :
    JobInstruction → (Except NexusError GoogleCredential × Nat × Nat)
  | .maintain _ cred =>
      let (res, n) := refreshInner jobRetryPolicy env.tokenCalls env.updateCredential cred
      (res, n, 0)
  | .onboard cred =>
      match refreshInner jobRetryPolicy env.tokenCalls env.updateCredential cred with
      | (.error e, n) => (.error e, n, 0)
      | (.ok cred1, n) =>
          match cred1.access_token with
          | none => (.error (.ractorError "Refresh success but token is None"), n, 0)
          | some _ =>
              match retryRun jobRetryPolicy NexusError.is_retryable env.loadCalls with
              | (.error e, m) => (.error e, n, m)
              | (.ok loadJson, m) =>
                  match env.parseLoadResp loadJson with
                  | none => (.error (.json "LoadCodeAssistResponse parse failed"), n, m)
                  | some (some pid) => (.ok { cred1 with project_id := pid }, n, m)
                  | some none => (.ok cred1, n, m)

/-- The worker body in `GoogleOauthService::new`
(`src/google_oauth/service.rs`): `Ok` becomes `Success` with the mutated
instruction, `Err` becomes `Failed`. -/
def pipelineOutcome (env : ExecEnv) (job : JobInstruction) : RefreshOutcome :=
  match job, jobExecute env job with
  | .maintain id _, (.ok cred, _, _) => .success (.maintain id cred)
  | .onboard _, (.ok cred, _, _) => .success (.onboard cred)
  | j, (.error e, _, _) => .failed j e

/-! ## Credential manager (spec section 4.2)

`src/service/credential_manager.rs` is absent from the source tree; every
operation below is modelled from the spec.  Maps and sets are association
lists / lists; lookups read the first matching entry. -/

/-- Modelled from the spec: the Credential Manager state (spec section 4.2):
records, per-model queues, cooldown table (`not_before` instants), and the
refreshing set. -/
structure CredentialManager where
  records : List (Nat × GoogleCredential)
  queues : List (String × List Nat)
  cooldowns : List ((Nat × String) × Int)
  refreshing : List Nat
  deriving Repr, DecidableEq

/-- The queue for one model key (empty when the key has no entry yet). -/
def queueOf (qs : List (String × List Nat)) (k : String) : List Nat :=
  ((qs.find? (fun q => q.1 == k)).map (fun q => q.2)).getD []

/-- Apply `f` to the queue of key `k`, creating the entry when absent. -/
def setQueue (qs : List (String × List Nat)) (k : String)
    (f : List Nat → List Nat) : List (String × List Nat) :=
  if qs.any (fun q => q.1 == k) then
    qs.map (fun q => if q.1 == k then (q.1, f q.2) else q)
  else qs ++ [(k, f [])]

/-- Apply `f` to the queue of key `k`; no entry is created when absent. -/
def mapQueue (qs : List (String × List Nat)) (k : String)
    (f : List Nat → List Nat) : List (String × List Nat) :=
  qs.map (fun q => if q.1 == k then (q.1, f q.2) else q)

/-- Modelled from the spec: `add_credential(id, cred, model_keys)` installs
or updates the record, appends id to the tail of every named queue unless
already present there, and clears any refreshing mark.  Cooldowns are kept. -/
def CredentialManager.add_credential (m : CredentialManager) (id : Nat)
    (cred : GoogleCredential) (keys : List String) : CredentialManager :=
  let records :=
    if m.records.any (fun e => e.1 == id) then
      m.records.map (fun e => if e.1 == id then (id, cred) else e)
    else m.records ++ [(id, cred)]
  let queues := keys.foldl
    (fun qs k => setQueue qs k (fun q => if q.contains id then q else q ++ [id]))
    m.queues
  { records := records, queues := queues, cooldowns := m.cooldowns,
    refreshing := m.refreshing.filter (fun x => x != id) }

/-- Modelled from the spec: `delete_credential(id)` removes id from records,
every queue, the cooldown table and the refreshing set. -/
def CredentialManager.delete_credential (m : CredentialManager) (id : Nat) :
    CredentialManager :=
  { records := m.records.filter (fun e => e.1 != id),
    queues := m.queues.map (fun q => (q.1, q.2.filter (fun x => x != id))),
    cooldowns := m.cooldowns.filter (fun e => e.1.1 != id),
    refreshing := m.refreshing.filter (fun x => x != id) }

/-- Modelled from the spec: `get_full_credential_copy(id)`. -/
def CredentialManager.get_full_credential_copy (m : CredentialManager)
    (id : Nat) : Option GoogleCredential :=
  (m.records.find? (fun e => e.1 == id)).map (fun e => e.2)

/-- Modelled from the spec: `project_id_of(id)`. -/
def CredentialManager.project_id_of (m : CredentialManager) (id : Nat) :
    Option String :=
  (m.get_full_credential_copy id).map (fun c => c.project_id)

/-- Modelled from the spec: `mark_refreshing(id)` removes id from every
queue and inserts it into the refreshing set. -/
def CredentialManager.mark_refreshing (m : CredentialManager) (id : Nat) :
    CredentialManager :=
  { m with
    queues := m.queues.map (fun q => (q.1, q.2.filter (fun x => x != id))),
    refreshing := if m.refreshing.contains id then m.refreshing else id :: m.refreshing }

/-- Modelled from the spec: `is_refreshing(id)`. -/
def CredentialManager.is_refreshing (m : CredentialManager) (id : Nat) : Bool :=
  m.refreshing.contains id

/-- Modelled from the spec: `contains(id)` (record-map membership). -/
def CredentialManager.contains (m : CredentialManager) (id : Nat) : Bool :=
  m.records.any (fun e => e.1 == id)

/-- Modelled from the spec: `report_rate_limit(id, model_key, cooldown)`
records `not_before = now + cooldown` for the pair and removes id from that
one queue's head when it is currently there. -/
def CredentialManager.report_rate_limit (m : CredentialManager) (id : Nat)
    (key : String) (cooldown : Int) (now : Int) : CredentialManager :=
  let cooldowns :=
    if m.cooldowns.any (fun e => e.1 == (id, key)) then
      m.cooldowns.map (fun e => if e.1 == (id, key) then (e.1, now + cooldown) else e)
    else m.cooldowns ++ [((id, key), now + cooldown)]
  let popHead : List Nat → List Nat
    | [] => []
    | x :: rest => if x == id then rest else x :: rest
  { m with cooldowns := cooldowns, queues := mapQueue m.queues key popHead }

/-- Result of scanning one queue (spec section 4.2 assignment algorithm):
the chosen id, the queue left behind, the cooldown table after lazy expiry
drops, and the ids diverted to refresh. -/
structure ScanResult where
  assigned : Option Nat
  queue : List Nat
  cooldowns : List ((Nat × String) × Int)
  refreshIds : List Nat
  deriving Repr, DecidableEq

/-- The cooldown entry for (id, key), when present. -/
def cdLookup (cds : List ((Nat × String) × Int)) (id : Nat) (key : String) :
    Option Int :=
  (cds.find? (fun e => e.1 == (id, key))).map (fun e => e.2)

/-- Drop every cooldown entry for (id, key). -/
def cdRemove (cds : List ((Nat × String) × Int)) (id : Nat) (key : String) :
    List ((Nat × String) × Int) :=
  cds.filter (fun e => e.1 != (id, key))

/-- Whether (id, key) has a cooldown that has not yet expired. -/
def cdActive (cds : List ((Nat × String) × Int)) (id : Nat) (key : String)
    (now : Int) : Bool :=
  match cdLookup cds id key with
  | some nb => decide (now < nb)
  | none => false

/-- Modelled from the spec: the assignment scan (spec section 4.2).  Head to
tail: an id under an active cooldown is skipped in place; an expired
cooldown entry is dropped and the id re-examined; an id whose record lacks
an access token or is within the 30 s expiry skew is dequeued into
`refreshIds` (an id with no record at all is treated the same way — the
invalid-report it triggers is a no-op); otherwise the id is assigned and
re-pushed to the tail. -/
def assignScan (recs : List (Nat × GoogleCredential)) (now : Int) (key : String) :
    List Nat → List ((Nat × String) × Int) → ScanResult
  | [], cds => ⟨none, [], cds, []⟩
  | id :: rest, cds =>
      if cdActive cds id key now then
        let r := assignScan recs now key rest cds
        ⟨r.assigned, id :: r.queue, r.cooldowns, r.refreshIds⟩
      else
        let cds1 := cdRemove cds id key
        match recs.find? (fun e => e.1 == id) with
        | none =>
            let r := assignScan recs now key rest cds1
            ⟨r.assigned, r.queue, r.cooldowns, id :: r.refreshIds⟩
        | some rec =>
            if rec.2.access_token.isNone || decide (rec.2.expiry - 30 ≤ now) then
              let r := assignScan recs now key rest cds1
              ⟨r.assigned, r.queue, r.cooldowns, id :: r.refreshIds⟩
            else
              ⟨some id, rest ++ [id], cds1, []⟩

/-- Modelled from the spec: the result of `get_assigned`. -/
structure Assignment where
  assigned : Option AssignedCredential
  refresh_ids : List Nat
  deriving Repr, DecidableEq

/-- Modelled from the spec: `get_assigned(model_key)` runs the assignment
scan over that model's queue, installs the scan's queue and cooldown table,
and packages the chosen record as an `AssignedCredential`. -/
def CredentialManager.get_assigned (m : CredentialManager) (key : String)
    (now : Int) : CredentialManager × Assignment :=
  let r := assignScan m.records now key (queueOf m.queues key) m.cooldowns
  let queues := mapQueue m.queues key (fun _ => r.queue)
  let m1 := { m with queues := queues, cooldowns := r.cooldowns }
  let assigned := r.assigned.bind fun aid =>
    (m.records.find? (fun e => e.1 == aid)).map fun e =>
      { id := aid, project_id := e.2.project_id,
        access_token := e.2.access_token.getD "", target_model := key }
  (m1, ⟨assigned, r.refreshIds⟩)

/-! ## Coordinator actor (`src/service/credentials_actor.rs`) -/

/-- An observable effect of processing one message: a job submitted to the
refresh pipeline, a store write, or the RPC reply of `GetCredential`. -/
inductive Effect where
  | submitJob (id : Nat) (cred : GoogleCredential)
  | dbUpdateById (id : Nat) (cred : GoogleCredential) (status : Bool)
  | dbSetStatus (id : Nat) (status : Bool)
  | replyAssigned (a : Option AssignedCredential)
  deriving Repr, DecidableEq

/-- `CredentialsActorMessage` (`src/service/credentials_actor.rs`).
`SubmitCredentials` spawns detached onboarding tasks whose completions
re-enter as later `ActivateCredential` messages, so here it mutates
nothing. -/
inductive ActorMsg where
  | getCredential (model : String)
  | reportRateLimit (id : Nat) (cooldown : Int) (model : String)
  | reportInvalid (id : Nat)
  | reportBaned (id : Nat)
  | refreshComplete (id : Nat) (result : Except NexusError GoogleCredential)
  | activateCredential (id : Nat) (cred : GoogleCredential)
  | submitCredentials (creds : List GoogleCredential)

/-- `CredentialsActorState`: the manager plus the configured model keys
(`CONFIG.model_list`).  The store handle is modelled separately. -/
structure ActorState where
  manager : CredentialManager
  queue_keys : List String
  deriving Repr, DecidableEq

/-- `CredentialsActor::handle_report_invalid`: no-op when already
refreshing or unknown; otherwise mark refreshing and enqueue a refresh job;
when the channel send fails (`ok = false`) the job is dropped and the
credential restored into its queues. -/
def handleReportInvalid (s : ActorState) (id : Nat) (ok : Bool) :
    ActorState × List Effect :=
  if s.manager.is_refreshing id then (s, [])
  else
    match s.manager.get_full_credential_copy id with
    | none => (s, [])
    | some current =>
        let m1 := s.manager.mark_refreshing id
        if ok then ({ s with manager := m1 }, [.submitJob id current])
        else ({ s with manager := m1.add_credential id current s.queue_keys }, [])

/-- `CredentialsActor::handle_get_credential`: run `get_assigned`, issue an
internal invalid-report for every diverted id (`sendOk i` tells whether the
i-th enqueue in this message succeeds), then reply with the assignment. -/
def handleGetCredential (s : ActorState) (model : String) (now : Int)
    (sendOk : Nat → Bool) : ActorState × List Effect :=
  let ga := s.manager.get_assigned model now
  let folded := ga.2.refresh_ids.foldl
    (fun (acc : ActorState × List Effect × Nat) rid =>
      ((handleReportInvalid acc.1 rid (sendOk acc.2.2)).1,
       acc.2.1 ++ (handleReportInvalid acc.1 rid (sendOk acc.2.2)).2,
       acc.2.2 + 1))
    ({ s with manager := ga.1 }, [], 0)
  (folded.1, folded.2.1 ++ [.replyAssigned ga.2.assigned])

/-- The `RefreshComplete` arm of `CredentialsActor::handle`: stale results
(id not refreshing) are ignored; `Ok` re-installs the updated credential
and writes it back; `Err(Oauth2Server)` deletes the credential and sets
status false; any other error restores the previously known record. -/
def handleRefreshComplete (s : ActorState) (id : Nat)
    (result : Except NexusError GoogleCredential) : ActorState × List Effect :=
  if ¬ s.manager.is_refreshing id then (s, [])
  else
    match result with
    | .ok updated =>
        ({ s with manager := s.manager.add_credential id updated s.queue_keys },
         [.dbUpdateById id updated true])
    | .error e =>
        match e with
        | .oauth2Server _ =>
            ({ s with manager := s.manager.delete_credential id },
             [.dbSetStatus id false])
        | _ =>
            match s.manager.get_full_credential_copy id with
            | some existing =>
                ({ s with manager := s.manager.add_credential id existing s.queue_keys }, [])
            | none => (s, [])

/-- `CredentialsActor::handle_report_rate_limit`: ignored for unknown ids. -/
def handleReportRateLimit (s : ActorState) (id : Nat) (cooldown : Int)
    (model : String) (now : Int) : ActorState × List Effect :=
  if s.manager.contains id then
    ({ s with manager := s.manager.report_rate_limit id model cooldown now }, [])
  else (s, [])

/-- `CredentialsActor::handle_report_baned`: delete from memory, persist
status false. -/
def handleReportBaned (s : ActorState) (id : Nat) : ActorState × List Effect :=
  ({ s with manager := s.manager.delete_credential id }, [.dbSetStatus id false])

/-- Per-message environment: the instant the message is processed at and
whether the i-th pipeline enqueue attempted while processing it succeeds. -/
structure MsgEnv where
  msg : ActorMsg
  now : Int
  sendOk : Nat → Bool

/-- One turn of the single-writer coordinator loop
(`CredentialsActor::handle`). -/
def actorStep (s : ActorState) (me : MsgEnv) : ActorState × List Effect :=
  match me.msg with
  | .getCredential model => handleGetCredential s model me.now me.sendOk
  | .reportRateLimit id cooldown model =>
      handleReportRateLimit s id cooldown model me.now
  | .reportInvalid id => handleReportInvalid s id (me.sendOk 0)
  | .reportBaned id => handleReportBaned s id
  | .refreshComplete id result => handleRefreshComplete s id result
  | .activateCredential id cred =>
      ({ s with manager := s.manager.add_credential id cred s.queue_keys }, [])
  | .submitCredentials _ => (s, [])

/-- Coordinator plus the credential store it writes through
(`CredentialOps`). -/
structure SysState where
  actor : ActorState
  store : CredStore

/-- Apply one effect to the store (job submissions and replies leave it
unchanged). -/
def applyEffect (st : CredStore) : Effect → CredStore
  | .dbUpdateById id c b => st.update_by_id id c b
  | .dbSetStatus id b => st.set_status id b
  | _ => st

/-- One coordinator turn with its store writes applied. -/
def sysStep (s : SysState) (me : MsgEnv) : SysState × List Effect :=
  let (a1, effs) := actorStep s.actor me
  ({ actor := a1, store := effs.foldl applyEffect s.store }, effs)

/-- Process a message sequence, collecting every effect in order. -/
def runTrace (s : SysState) : List MsgEnv → SysState × List Effect
  | [] => (s, [])
  | me :: rest =>
      let (s1, e1) := sysStep s me
      let (s2, e2) := runTrace s1 rest
      (s2, e1 ++ e2)

/-! ## Claim C8: inbound error rendering -/

/-- C8: every error surfaced to the inbound client carries a
`(status, {code, message})` pair with the claimed mapping:
`NoAvailableCredential` gives 503 `NO_CREDENTIAL`; `DatabaseError` and
`RactorError` give 500 `INTERNAL_ERROR`; transport errors give 502
`BAD_GATEWAY`; `UpstreamStatus(s)` passes `s` through with `RATE_LIMIT`
for 429, `UNAUTHORIZED` for 401, `FORBIDDEN` for 403, `NOT_FOUND` for 404,
`UPSTREAM_ERROR` otherwise. -/
theorem C8_error_status_mapping :
    (NexusError.noAvailableCredential.intoResponse.1 = 503 ∧
     NexusError.noAvailableCredential.intoResponse.2.code = "NO_CREDENTIAL") ∧
    (∀ m : String, (NexusError.databaseError m).intoResponse.1 = 500 ∧
      (NexusError.databaseError m).intoResponse.2.code = "INTERNAL_ERROR") ∧
    (∀ m : String, (NexusError.ractorError m).intoResponse.1 = 500 ∧
      (NexusError.ractorError m).intoResponse.2.code = "INTERNAL_ERROR") ∧
    (∀ m : String, (NexusError.reqwest m).intoResponse.1 = 502 ∧
      (NexusError.reqwest m).intoResponse.2.code = "BAD_GATEWAY") ∧
    (∀ c : Nat, (NexusError.upstreamStatus c).intoResponse.1 = c ∧
      (NexusError.upstreamStatus c).intoResponse.2.code =
        (if c = 429 then "RATE_LIMIT" else if c = 401 then "UNAUTHORIZED"
         else if c = 403 then "FORBIDDEN" else if c = 404 then "NOT_FOUND"
         else "UPSTREAM_ERROR")) := by
  refine ⟨⟨rfl, rfl⟩, fun m => ⟨rfl, rfl⟩, fun m => ⟨rfl, rfl⟩, fun m => ⟨rfl, rfl⟩,
    fun c => ⟨rfl, ?_⟩⟩
  simp only [NexusError.intoResponse]
  split_ifs <;> rfl

/-! ## Claim C6: quota-reset cooldown -/

/-- The parsed `quotaResetTimeStamp` values of the error body, in order. -/
def quotaTimestamps (e : GeminiError) : List Int :=
  match e.error.details with
  | none => []
  | some ds => ds.filterMap (fun d => d.quotaResetTimeStamp)

lemma head_filterMap_pos (now : Int) (l : List Int) :
    ((l.filterMap (fun ts => if 0 < ts - now then some (ts - now) else none)).head?).getD 60 =
      match l.find? (fun ts => decide (now < ts)) with
      | some ts => ts - now
      | none => 60 := by
  induction l with
  | nil => rfl
  | cons a l ih =>
      by_cases h : 0 < a - now
      · have h2 : now < a := by omega
        simp [List.filterMap_cons, h, List.find?_cons, h2]
      · have h2 : ¬ now < a := by omega
        simp only [List.filterMap_cons, if_neg h, List.find?_cons]
        simpa [h2] using ih

/-- The error body used to refute C6: a single detail whose
`quotaResetTimeStamp` parses to instant 95. -/
def c6Body : GeminiError :=
  ⟨⟨429, "quota exceeded", "RESOURCE_EXHAUSTED", some [⟨some 95⟩]⟩⟩

/-- C6 counterexample: at `now = 100` the body's timestamp (95) is in the
past.  The claim's `max(0, ts - now)` is 0, but the code filters out
non-positive differences and falls back to the 60 s default, so the claimed
cooldown disagrees with the implemented one. -/
theorem C6_counterexample :
    claimQuotaCooldown c6Body 100 = 0 ∧ rateLimitCooldown c6Body 100 = 60 ∧
    rateLimitCooldown c6Body 100 ≠ claimQuotaCooldown c6Body 100 := by
  refine ⟨by decide, by decide, by decide⟩

/-- C6 amended: `quota_reset_delay` yields `ts - now` for the first parsed
`details[].metadata.quotaResetTimeStamp` that lies strictly in the future;
when no parsed timestamp is strictly in the future (including a present but
already-passed timestamp, or none at all) the rate-limit report falls back
to the default 60 s cooldown. -/
theorem C6_amended_cooldown (e : GeminiError) (now : Int) :
    rateLimitCooldown e now =
      match (quotaTimestamps e).find? (fun ts => decide (now < ts)) with
      | some ts => ts - now
      | none => 60 := by
  unfold rateLimitCooldown GeminiError.quota_reset_delay quotaTimestamps
  cases h : e.error.details with
  | none => simp
  | some ds => simpa using head_filterMap_pos now (ds.filterMap (fun d => d.quotaResetTimeStamp))

/-! ## Claim C4: inbound authorisation -/

/-- C4 counterexample: the shared key presented under the scheme spelling
`BEARER` (upper case).  The claim's case-insensitive scheme match accepts
it, but `ensure_authorized` only strips the exact prefixes `Bearer ` and
`bearer ` and rejects the request with 401. -/
theorem C4_counterexample :
    claimAuthorized none (some "BEARER sharedkey") none "sharedkey" ∧
    ensure_authorized none (some "BEARER sharedkey") none "sharedkey" = .error 401 := by
  constructor
  · exact Or.inr (Or.inl ⟨"BEARER sharedkey", rfl, by decide, by decide⟩)
  · rfl

lemma ite_ok_iff (c : Prop) [Decidable c] :
    ((if c then (Except.ok () : Except Nat Unit) else .error 401) = .ok ()) ↔ c := by
  by_cases h : c <;> simp [h]

/-- C4 amended: `ensure_authorized` succeeds iff the `x-goog-api-key`
header equals the configured key, or the trimmed `Authorization` header is
exactly `Bearer <key>` or `bearer <key>` (only these two spellings of the
scheme), or the query has a `key` parameter equal to the configured key —
all by plain string equality (the source compares with `==`; the claimed
constant-time character of the comparison is a timing property with no
counterpart in this embedding); every failure is the 401 rejection. -/
theorem C4_auth_characterization (x a : Option String)
    (q : Option (List (String × String))) (e : String) :
    ((ensure_authorized x a q e = .ok ()) ↔
      (x = some e ∨
       (∃ s, a = some s ∧
         (strStartsWith (strTrim s) "Bearer " = true ∨
          strStartsWith (strTrim s) "bearer " = true) ∧
         strDrop (strTrim s) 7 = e) ∨
       (∃ ps, q = some ps ∧ ("key", e) ∈ ps))) ∧
    (ensure_authorized x a q e = .ok () ∨ ensure_authorized x a q e = .error 401) := by
  constructor
  · unfold ensure_authorized
    rw [ite_ok_iff]
    constructor
    · intro h
      rcases Bool.or_eq_true_iff.mp h with h | h
      · rcases Bool.or_eq_true_iff.mp h with h | h
        · left
          cases x with
          | none => simp at h
          | some hv => simp at h; simp [h]
        · right; left
          cases a with
          | none => simp at h
          | some s =>
              refine ⟨s, rfl, ?_⟩
              by_cases h1 : strStartsWith (strTrim s) "Bearer "
              · simp only [h1, if_true] at h
                exact ⟨Or.inl h1, by simpa using h⟩
              · by_cases h2 : strStartsWith (strTrim s) "bearer "
                · simp only [h1, if_false, h2, if_true] at h
                  exact ⟨Or.inr h2, by simpa using h⟩
                · simp [h1, h2] at h
      · right; right
        cases q with
        | none => simp at h
        | some ps =>
            refine ⟨ps, rfl, ?_⟩
            rcases List.any_eq_true.mp h with ⟨kv, hm, hb⟩
            obtain ⟨k, v⟩ := kv
            simp only [Bool.and_eq_true, beq_iff_eq] at hb
            obtain ⟨rfl, rfl⟩ := hb
            exact hm
    · intro h
      apply Bool.or_eq_true_iff.mpr
      rcases h with h | ⟨s, rfl, hsw, hdrop⟩ | ⟨ps, rfl, hmem⟩
      · left; apply Bool.or_eq_true_iff.mpr; left
        cases x with
        | none => simp at h
        | some hv => simp at h ⊢; simp [h]
      · left; apply Bool.or_eq_true_iff.mpr; right
        rcases hsw with h1 | h1
        · simp [h1, hdrop]
        · by_cases h2 : strStartsWith (strTrim s) "Bearer "
          · simp [h2, h1, hdrop]
          · simp [h2, h1, hdrop]
      · right
        apply List.any_eq_true.mpr
        exact ⟨("key", e), hmem, by simp⟩
  · unfold ensure_authorized
    by_cases h : (match x with
        | some hv => hv == e
        | none => false) = true
    · simp [h]
    · dsimp only
      split <;> simp

/-! ## Claim C9: JWT email attachment -/

lemma find?_congr_on {α : Type} (l : List α) (p q : α → Bool)
    (h : ∀ x ∈ l, p x = q x) : l.find? p = l.find? q := by
  induction l with
  | nil => rfl
  | cons a l ih =>
      have ha := h a (List.mem_cons_self a l)
      cases hq : q a with
      | true => rw [List.find?_cons_of_pos _ (ha ▸ hq), List.find?_cons_of_pos _ hq]
      | false =>
          rw [List.find?_cons_of_neg _ (by simp [ha, hq]),
            List.find?_cons_of_neg _ (by simp [hq])]
          exact ih (fun x hx => h x (List.mem_cons_of_mem a hx))

/-- Inserting a field leaves every other field's lookup unchanged. -/
lemma get_insertField_ne (v : Json) (k k2 : String) (val : Json)
    (h : ¬ k2 = k) : (v.insertField k val).get k2 = v.get k2 := by
  cases v with
  | obj fields =>
      show (Json.insertField (.obj fields) k val).get k2 = (Json.obj fields).get k2
      unfold Json.insertField
      by_cases hany : fields.any (fun f => f.1 == k)
      · simp only [hany, if_true]
        show ((fields.map fun f => if f.1 == k then (k, val) else f).find?
          (fun f => f.1 == k2)).map (fun f => f.2) =
          (fields.find? (fun f => f.1 == k2)).map (fun f => f.2)
        rw [List.find?_map]
        have hpred : ∀ f ∈ fields,
            ((fun f => f.1 == k2) ∘ fun f => if f.1 == k then (k, val) else f) f =
              (fun (f : String × Json) => f.1 == k2) f := by
          intro f _
          by_cases hf : (f.1 == k) = true
          · have hk : f.1 = k := by simpa using hf
            simp [hf, hk]
          · have hk : ¬ f.1 = k := by simpa using hf
            simp [hf, hk]
        rw [find?_congr_on _ _ _ hpred]
        cases hfind : fields.find? (fun f => f.1 == k2) with
        | none => rfl
        | some f0 =>
            have hp := List.find?_some hfind
            have hk2 : f0.1 = k2 := by simpa using hp
            have hne : (f0.1 == k) = false := by
              rw [hk2]
              exact beq_eq_false_iff_ne.mpr h
            simp [Option.map, hne]
      · simp only [hany, if_false]
        show ((fields ++ [(k, val)]).find? (fun f => f.1 == k2)).map (fun f => f.2) =
          (fields.find? (fun f => f.1 == k2)).map (fun f => f.2)
        have hsingle : ([(k, val)].find? (fun f => f.1 == k2)) = none := by
          have hne : (k == k2) = false := beq_eq_false_iff_ne.mpr (fun hkk => h hkk.symm)
          simp [List.find?_cons, hne]
        rw [List.find?_append, hsingle, Option.or_none]
  | null => rfl
  | bool b => rfl
  | num n => rfl
  | str s => rfl
  | arr items => rfl

/-- C9: `attach_email_from_id_token` is total (it is a function of this
embedding); whenever `id_token` is absent or not a string, the token has no
middle dot-separated segment, the segment fails base64 decoding, the bytes
fail JSON parsing, or the decoded JSON has no string `email` field, the
payload is returned unchanged; on success the only change is inserting the
`email` field. -/
theorem C9_attach_email_frame (b64 : String → Option (List Nat))
    (parse : List Nat → Option Json) (v : Json) :
    (attach_email_from_id_token b64 parse v = v ∨
      ∃ em, attach_email_from_id_token b64 parse v =
        v.insertField "email" (.str em)) ∧
    (∀ k, ¬ k = "email" →
      (attach_email_from_id_token b64 parse v).get k = v.get k) ∧
    ((v.get "id_token").bind Json.asStr = none →
      attach_email_from_id_token b64 parse v = v) ∧
    (∀ idt, (v.get "id_token").bind Json.asStr = some idt →
      ((splitDots idt)[1]? = none → attach_email_from_id_token b64 parse v = v) ∧
      (∀ seg, (splitDots idt)[1]? = some seg →
        (b64 seg = none → attach_email_from_id_token b64 parse v = v) ∧
        (∀ bs, b64 seg = some bs →
          (parse bs = none → attach_email_from_id_token b64 parse v = v) ∧
          (∀ pj, parse bs = some pj →
            ((pj.get "email").bind Json.asStr = none →
              attach_email_from_id_token b64 parse v = v) ∧
            (∀ em, (pj.get "email").bind Json.asStr = some em →
              attach_email_from_id_token b64 parse v =
                v.insertField "email" (.str em)))))) := by
  have main :
      attach_email_from_id_token b64 parse v = v ∨
      ∃ em, attach_email_from_id_token b64 parse v =
        v.insertField "email" (.str em) := by
    cases h1 : (v.get "id_token").bind Json.asStr with
    | none => exact Or.inl (by simp [attach_email_from_id_token, h1])
    | some idt =>
        cases h2 : (splitDots idt)[1]? with
        | none => exact Or.inl (by simp [attach_email_from_id_token, h1, h2])
        | some seg =>
            cases h3 : b64 seg with
            | none => exact Or.inl (by simp [attach_email_from_id_token, h1, h2, h3])
            | some bs =>
                cases h4 : parse bs with
                | none =>
                    exact Or.inl (by simp [attach_email_from_id_token, h1, h2, h3, h4])
                | some pj =>
                    cases h5 : (pj.get "email").bind Json.asStr with
                    | none =>
                        exact Or.inl
                          (by simp [attach_email_from_id_token, h1, h2, h3, h4, h5])
                    | some em =>
                        exact Or.inr
                          ⟨em, by simp [attach_email_from_id_token, h1, h2, h3, h4, h5]⟩
  refine ⟨main, ?_, ?_, ?_⟩
  · intro k hk
    rcases main with h | ⟨em, h⟩
    · rw [h]
    · rw [h, get_insertField_ne _ _ _ _ hk]
  · intro h1
    simp [attach_email_from_id_token, h1]
  · intro idt h1
    refine ⟨fun h2 => by simp [attach_email_from_id_token, h1, h2], ?_⟩
    intro seg h2
    refine ⟨fun h3 => by simp [attach_email_from_id_token, h1, h2, h3], ?_⟩
    intro bs h3
    refine ⟨fun h4 => by simp [attach_email_from_id_token, h1, h2, h3, h4], ?_⟩
    intro pj h4
    refine ⟨fun h5 => by simp [attach_email_from_id_token, h1, h2, h3, h4, h5], ?_⟩
    intro em h5
    simp [attach_email_from_id_token, h1, h2, h3, h4, h5]

/-- C9 witness: at a concrete payload with no `id_token` and trivial
decoder oracles, the payload is returned unchanged. -/
theorem C9_attach_email_frame_witness :
    attach_email_from_id_token (fun _ => none) (fun _ => none)
      (Json.obj [("access_token", Json.str "t")]) =
      Json.obj [("access_token", Json.str "t")] :=
  (C9_attach_email_frame (fun _ => none) (fun _ => none)
    (Json.obj [("access_token", Json.str "t")])).2.2.1 rfl

/-! ## Claims C5 and C10: refresh retries -/

lemma retryGo_count_le {E A : Type} (p : E → Bool) (calls : Nat → Except E A) :
    ∀ r i, (retryGo p calls i r).2 ≤ i + r + 1 := by
  intro r
  induction r with
  | zero => intro i; simp [retryGo]
  | succ r ih =>
      intro i
      show (retryGo p calls i (r + 1)).2 ≤ i + (r + 1) + 1
      unfold retryGo
      cases calls i with
      | ok a => simp
      | error e =>
          by_cases hp : p e
          · simp only [hp, if_true]
            have := ih (i + 1)
            omega
          · simp [hp]

lemma retryGo_count_ge {E A : Type} (p : E → Bool) (calls : Nat → Except E A) :
    ∀ r i, i + 1 ≤ (retryGo p calls i r).2 := by
  intro r
  induction r with
  | zero => intro i; simp [retryGo]
  | succ r ih =>
      intro i
      unfold retryGo
      cases calls i with
      | ok a => simp
      | error e =>
          by_cases hp : p e
          · simp only [hp, if_true]
            have := ih (i + 1)
            omega
          · simp [hp]

/-- A call with index `j + 1` is made only because call `j` failed with an
error the predicate accepts. -/
lemma retryGo_retry_reason {E A : Type} (p : E → Bool) (calls : Nat → Except E A) :
    ∀ r i j, i ≤ j → j + 1 < (retryGo p calls i r).2 →
      ∃ e, calls j = .error e ∧ p e = true := by
  intro r
  induction r with
  | zero =>
      intro i j hij hlt
      simp [retryGo] at hlt
      omega
  | succ r ih =>
      intro i j hij hlt
      unfold retryGo at hlt
      cases h : calls i with
      | ok a => rw [h] at hlt; simp at hlt; omega
      | error e =>
          rw [h] at hlt
          by_cases hp : p e
          · simp only [hp, if_true] at hlt
            rcases Nat.eq_or_lt_of_le hij with rfl | hlt2
            · exact ⟨e, h, hp⟩
            · exact ih (i + 1) j hlt2 hlt
          · simp [hp] at hlt; omega

/-- Conversely: while retries remain, a retryable failure is retried. -/
lemma retryGo_progress {E A : Type} (p : E → Bool) (calls : Nat → Except E A) :
    ∀ j r i, j < r → (∀ k, i ≤ k → k ≤ i + j → ∃ e, calls k = .error e ∧ p e = true) →
      i + j + 2 ≤ (retryGo p calls i r).2 := by
  intro j
  induction j with
  | zero =>
      intro r i hr hcalls
      obtain ⟨r', rfl⟩ : ∃ r', r = r' + 1 := ⟨r - 1, by omega⟩
      obtain ⟨e, he, hpe⟩ := hcalls i (le_refl i) (by omega)
      unfold retryGo
      rw [he]
      simp only [hpe, if_true]
      have := retryGo_count_ge p calls r' (i + 1)
      omega
  | succ j ih =>
      intro r i hr hcalls
      obtain ⟨r', rfl⟩ : ∃ r', r = r' + 1 := ⟨r - 1, by omega⟩
      obtain ⟨e, he, hpe⟩ := hcalls i (le_refl i) (by omega)
      unfold retryGo
      rw [he]
      simp only [hpe, if_true]
      have := ih r' (i + 1) (by omega)
        (fun k hk1 hk2 => hcalls k (by omega) (by omega))
      omega

lemma refreshInner_count (policy : RetryPolicy)
    (tokenCalls : Nat → Except NexusError Json)
    (updateCredential : GoogleCredential → Json → Except NexusError GoogleCredential)
    (cred : GoogleCredential) :
    (refreshInner policy tokenCalls updateCredential cred).2 ≤ policy.maxTimes + 1 := by
  unfold refreshInner retryRun
  have h := retryGo_count_le NexusError.is_retryable tokenCalls policy.maxTimes 0
  rcases hgo : retryGo NexusError.is_retryable tokenCalls 0 policy.maxTimes with ⟨res, n⟩
  rw [hgo] at h
  cases res <;> simpa using h

/-- C5 counterexample input: an onboarding credential. -/
def cred0 : GoogleCredential :=
  { email := none, client_id := "cid", client_secret := "csec",
    project_id := "proj", scopes := none, refresh_token := "rtok",
    access_token := none, expiry := 0 }

/-- C5 counterexample environment A: the token endpoint succeeds at once,
but the first `loadCodeAssist` call fails with a transport error and the
second succeeds. -/
def c5envA : ExecEnv :=
  { tokenCalls := fun _ => .ok .null,
    updateCredential := fun c _ => .ok { c with access_token := some "tok" },
    loadCalls := fun i => if i == 0 then .error (.reqwest "io") else .ok .null,
    parseLoadResp := fun _ => some none }

/-- C5 counterexample environment B: the token endpoint fails with a
transport error three times and succeeds on the fourth call. -/
def c5envB : ExecEnv :=
  { tokenCalls := fun i => if i < 3 then .error (.reqwest "io") else .ok .null,
    updateCredential := fun c _ => .ok { c with access_token := some "tok" },
    loadCalls := fun _ => .ok .null,
    parseLoadResp := fun _ => some none }

/-- C5 counterexample: (a) an Onboard job in environment A succeeds after
making 2 `loadCodeAssist` calls — a backoff retry fired around a call that
is not the token-endpoint call, refuting "applied around the token-endpoint
call only"; (b) a Maintain job in environment B succeeds after 4
token-endpoint calls, refuting "at most 3 attempts". -/
theorem C5_counterexample :
    ((jobExecute c5envA (.onboard cred0)).2.2 = 2 ∧
      (jobExecute c5envA (.onboard cred0)).1 =
        .ok { cred0 with access_token := some "tok" }) ∧
    ((jobExecute c5envB (.maintain 7 cred0)).2.1 = 4 ∧
      (jobExecute c5envB (.maintain 7 cred0)).1 =
        .ok { cred0 with access_token := some "tok" }) :=
  ⟨⟨rfl, rfl⟩, ⟨rfl, rfl⟩⟩

/-- C5 amended: both refresh job kinds configure the exponential backoff
with min delay 1 s, max delay 3 s, jitter, and `max_times = 3` — i.e. at
most 3 retries after the initial call, hence at most 4 calls, not 3; the
policy is applied around the token-endpoint call, and in an Onboard job an
identically-parameterised retried run also wraps the `loadCodeAssist` call;
a later call is made only when the previous one failed with an error
classified retryable, and a retryable failure with retries remaining is
retried; the classification marks transport (`Reqwest`) errors and upstream
5xx retryable, and `Oauth2Server` and JSON parse errors not. -/
theorem C5_retry_policy_amended :
    (jobRetryPolicy.minDelay = 1 ∧ jobRetryPolicy.maxDelay = 3 ∧
     jobRetryPolicy.maxTimes = 3 ∧ jobRetryPolicy.jitter = true) ∧
    (∀ env (id : Nat) cred, (jobExecute env (.maintain id cred)).2.1 ≤ 4 ∧
      (jobExecute env (.maintain id cred)).2.2 = 0) ∧
    (∀ env cred, (jobExecute env (.onboard cred)).2.1 ≤ 4 ∧
      (jobExecute env (.onboard cred)).2.2 ≤ 4) ∧
    (∀ (E A : Type) (policy : RetryPolicy) (p : E → Bool)
      (calls : Nat → Except E A) (j : Nat),
      j + 1 < (retryRun policy p calls).2 → ∃ e, calls j = .error e ∧ p e = true) ∧
    (∀ (E A : Type) (policy : RetryPolicy) (p : E → Bool)
      (calls : Nat → Except E A) (j : Nat),
      j < policy.maxTimes → (∀ k, k ≤ j → ∃ e, calls k = .error e ∧ p e = true) →
      j + 2 ≤ (retryRun policy p calls).2) ∧
    ((∀ m, (NexusError.reqwest m).is_retryable = true) ∧
     (∀ c, (NexusError.upstreamStatus c).is_retryable =
        (decide (500 ≤ c) && decide (c ≤ 599))) ∧
     (∀ m, (NexusError.oauth2Server m).is_retryable = false) ∧
     (∀ m, (NexusError.json m).is_retryable = false)) := by
  refine ⟨⟨rfl, rfl, rfl, rfl⟩, ?_, ?_, ?_, ?_, ?_⟩
  · intro env id cred
    constructor
    · show (refreshInner jobRetryPolicy env.tokenCalls env.updateCredential cred).2 ≤ 4
      exact refreshInner_count jobRetryPolicy env.tokenCalls env.updateCredential cred
    · rfl
  · intro env cred
    have htok := refreshInner_count jobRetryPolicy env.tokenCalls env.updateCredential cred
    have hload := retryGo_count_le NexusError.is_retryable env.loadCalls
      jobRetryPolicy.maxTimes 0
    have hload4 : (retryRun jobRetryPolicy NexusError.is_retryable env.loadCalls).2 ≤ 4 := by
      simpa [retryRun, jobRetryPolicy] using hload
    have htok4 : (refreshInner jobRetryPolicy env.tokenCalls env.updateCredential cred).2 ≤ 4 := by
      simpa [jobRetryPolicy] using htok
    unfold jobExecute
    dsimp only
    split
    next e n heq =>
      refine ⟨?_, by simp⟩
      rw [heq] at htok4
      simpa using htok4
    next cred1 n heq =>
      have hn : n ≤ 4 := by rw [heq] at htok4; simpa using htok4
      split
      next => exact ⟨hn, by simp⟩
      next t =>
        split
        next e m heq2 =>
          refine ⟨hn, ?_⟩
          rw [heq2] at hload4
          simpa using hload4
        next lj m heq2 =>
          have hm : m ≤ 4 := by rw [heq2] at hload4; simpa using hload4
          split <;> exact ⟨hn, hm⟩
  · intro E A policy p calls j hlt
    exact retryGo_retry_reason p calls policy.maxTimes 0 j (Nat.zero_le j) hlt
  · intro E A policy p calls j hj hcalls
    have := retryGo_progress p calls j policy.maxTimes 0 hj
      (fun k hk1 hk2 => hcalls k (by omega))
    simpa [retryRun] using this
  · exact ⟨fun m => rfl, fun c => rfl, fun m => rfl, fun m => rfl⟩

/-- C5 amended witness: the "retry only on retryable failure" and
"retryable failures are retried" parts instantiated on environment B's
token oracle: at least 2 calls are made, and call 0 indeed failed
retryably. -/
theorem C5_retry_policy_amended_witness :
    (2 ≤ (retryRun jobRetryPolicy NexusError.is_retryable c5envB.tokenCalls).2) ∧
    (∃ e, c5envB.tokenCalls 0 = .error e ∧ e.is_retryable = true) := by
  refine ⟨?_, ?_⟩
  · exact C5_retry_policy_amended.2.2.2.2.1 NexusError Json jobRetryPolicy
      NexusError.is_retryable c5envB.tokenCalls 0 (by decide)
      (fun k hk => by
        interval_cases k
        exact ⟨.reqwest "io", rfl, rfl⟩)
  · exact C5_retry_policy_amended.2.2.2.1 NexusError Json jobRetryPolicy
      NexusError.is_retryable c5envB.tokenCalls 0 (by decide)

/-- Whenever an Onboard execution returns `Ok`, the returned credential has
an access token (the explicit check fails the job otherwise, and
`loadCodeAssist` handling never clears the token). -/
lemma onboard_ok_token (env : ExecEnv) (cred c2 : GoogleCredential)
    (h : (jobExecute env (.onboard cred)).1 = .ok c2) :
    c2.access_token.isSome := by
  unfold jobExecute at h
  dsimp only at h
  rcases hri : refreshInner jobRetryPolicy env.tokenCalls env.updateCredential cred
    with ⟨res, n⟩
  rw [hri] at h
  cases res with
  | error e => simp at h
  | ok cred1 =>
      dsimp only at h
      cases ht : cred1.access_token with
      | none => rw [ht] at h; simp at h
      | some t =>
          rw [ht] at h
          dsimp only at h
          rcases hgo : retryRun jobRetryPolicy NexusError.is_retryable env.loadCalls
            with ⟨lres, m⟩
          rw [hgo] at h
          cases lres with
          | error e => simp at h
          | ok lj =>
              dsimp only at h
              cases hparse : env.parseLoadResp lj with
              | none => rw [hparse] at h; simp at h
              | some po =>
                  rw [hparse] at h
                  cases po with
                  | none =>
                      dsimp only at h
                      simp only [Except.ok.injEq] at h
                      rw [← h, ht]; rfl
                  | some pid =>
                      dsimp only at h
                      simp only [Except.ok.injEq] at h
                      rw [← h]
                      rfl

/-- C10: for every Onboard job whose token refresh succeeds but leaves the
credential without an access token, `JobInstruction::execute` returns the
`RactorError` instead of `Ok`, the pipeline emits `Failed`, and in general
no `Success` outcome of an Onboard job carries a credential without an
access token. -/
theorem C10_onboard_missing_token_fails (env : ExecEnv) (cred c1 : GoogleCredential)
    (hok : (refreshInner jobRetryPolicy env.tokenCalls env.updateCredential cred).1 = .ok c1)
    (hnone : c1.access_token = none) :
    (jobExecute env (.onboard cred)).1 =
      .error (.ractorError "Refresh success but token is None") ∧
    pipelineOutcome env (.onboard cred) =
      .failed (.onboard cred) (.ractorError "Refresh success but token is None") ∧
    (∀ env2 cred2 c2, pipelineOutcome env2 (.onboard cred2) = .success (.onboard c2) →
      c2.access_token.isSome) := by
  have hexec : (jobExecute env (.onboard cred)).1 =
      .error (.ractorError "Refresh success but token is None") := by
    unfold jobExecute
    dsimp only
    rcases hri : refreshInner jobRetryPolicy env.tokenCalls env.updateCredential cred
      with ⟨res, n⟩
    rw [hri] at hok
    simp only at hok
    subst hok
    dsimp only
    rw [hnone]
  refine ⟨hexec, ?_, ?_⟩
  · unfold pipelineOutcome
    rcases hje : jobExecute env (.onboard cred) with ⟨res, nm⟩
    rw [hje] at hexec
    simp only at hexec
    rw [hexec]
  · intro env2 cred2 c2 h
    apply onboard_ok_token env2 cred2 c2
    unfold pipelineOutcome at h
    rcases hje : jobExecute env2 (.onboard cred2) with ⟨res, nm⟩
    rw [hje] at h
    cases res with
    | ok c => simp at h; rw [h]
    | error e => simp at h

/-- C10 environment: refresh succeeds but the token-endpoint payload update
leaves `access_token` empty. -/
def c10env : ExecEnv :=
  { tokenCalls := fun _ => .ok .null,
    updateCredential := fun c _ => .ok { c with access_token := none },
    loadCalls := fun _ => .ok .null,
    parseLoadResp := fun _ => some none }

/-- C10 witness: in `c10env` the Onboard job for `cred0` fails and the
pipeline emits `Failed`. -/
theorem C10_onboard_missing_token_fails_witness :
    pipelineOutcome c10env (.onboard cred0) =
      .failed (.onboard cred0) (.ractorError "Refresh success but token is None") :=
  (C10_onboard_missing_token_fails c10env cred0
    { cred0 with access_token := none } rfl rfl).2.1

/-! ## Claim C7: store round-trip -/

lemma find?_id_of_nodup (rows : List DbCredential) (r0 : DbCredential)
    (h0 : r0 ∈ rows) (hnd : (rows.map (fun r => r.id)).Nodup) :
    rows.find? (fun r => r.id == r0.id) = some r0 := by
  induction rows with
  | nil => cases h0
  | cons a rows ih =>
      rcases List.mem_cons.mp h0 with rfl | hmem
      · exact List.find?_cons_of_pos _ (by simp)
      · have hnd2 := List.nodup_cons.mp hnd
        have hne : (a.id == r0.id) = false := by
          apply beq_eq_false_iff_ne.mpr
          intro hcontra
          apply hnd2.1
          show a.id ∈ List.map (fun r => r.id) rows
          rw [hcontra]
          exact List.mem_map_of_mem (fun r => r.id) hmem
        rw [List.find?_cons_of_neg _ (by simp [hne]),
          ih hmem hnd2.2]

/-- C7: for every credential `c` with non-empty refresh token and every
well-formed store state, `upsert(c, true)` returns an id, and `get_by_id`
on that id returns exactly the row holding `c`'s fields (the id aside) with
status true. -/
theorem C7_upsert_roundtrip (st : CredStore) (c : GoogleCredential)
    (hrt : c.refresh_token ≠ "") (hwf : st.WF) :
    ∃ id, (st.upsert c true).2 = some id ∧
      (st.upsert c true).1.get_by_id id = some (storedRow c true id) := by
  obtain ⟨hids, hlt, hpids⟩ := hwf
  unfold CredStore.upsert CredStore.get_by_id
  dsimp only
  by_cases hconf : (st.rows.any (fun r => r.project_id == c.project_id)) = true
  · rw [if_pos hconf]
    set g : DbCredential → DbCredential :=
      fun r => if r.project_id == c.project_id then storedRow c true r.id else r with hg
    have hpred : ∀ r ∈ st.rows,
        ((fun r => r.project_id == c.project_id) ∘ g) r =
          (fun (r : DbCredential) => r.project_id == c.project_id) r := by
      intro r _
      by_cases hr : r.project_id = c.project_id
      · simp [hg, hr, storedRow]
      · simp [hg, hr]
    have hpredid : ∀ r ∈ st.rows, ∀ v : Nat,
        ((fun r => r.id == v) ∘ g) r = (fun (r : DbCredential) => r.id == v) r := by
      intro r _ v
      by_cases hr : r.project_id = c.project_id
      · simp [hg, hr, storedRow]
      · simp [hg, hr]
    cases hfind : st.rows.find? (fun r => r.project_id == c.project_id) with
    | none =>
        exfalso
        rcases List.any_eq_true.mp hconf with ⟨r, hr, hpr⟩
        exact absurd hpr (by simpa using List.find?_eq_none.mp hfind r hr)
    | some r0 =>
        have hmem := List.mem_of_find?_eq_some hfind
        have hp0 := List.find?_some hfind
        have hp0e : r0.project_id = c.project_id := by simpa using hp0
        have hg0 : g r0 = storedRow c true r0.id := by simp [hg, hp0e]
        refine ⟨r0.id, ?_, ?_⟩
        · rw [List.find?_map, find?_congr_on _ _ _ hpred, hfind]
          simp [hg0, storedRow]
        · rw [List.find?_map,
            find?_congr_on _ _ _ (fun r hr => hpredid r hr r0.id),
            find?_id_of_nodup st.rows r0 hmem hids]
          simp [hg0]
  · rw [if_neg hconf]
    have hnone : st.rows.find? (fun r => r.project_id == c.project_id) = none := by
      apply List.find?_eq_none.mpr
      intro r hr
      intro hpr
      exact absurd (List.any_eq_true.mpr ⟨r, hr, hpr⟩) hconf
    have hnoneid : st.rows.find? (fun r => r.id == st.nextId) = none := by
      apply List.find?_eq_none.mpr
      intro r hr
      intro hpr
      have := hlt r hr
      have : r.id = st.nextId := by simpa using hpr
      omega
    refine ⟨st.nextId, ?_, ?_⟩
    · rw [List.find?_append, hnone]
      simp [storedRow]
    · rw [List.find?_append, hnoneid]
      simp [storedRow]

/-- C7 witness: the round trip at the empty store and a concrete
credential. -/
theorem C7_upsert_roundtrip_witness :
    ∃ id, ((⟨[], 1⟩ : CredStore).upsert cred0 true).2 = some id ∧
      ((⟨[], 1⟩ : CredStore).upsert cred0 true).1.get_by_id id =
        some (storedRow cred0 true id) :=
  C7_upsert_roundtrip ⟨[], 1⟩ cred0 (by decide) (by decide)

/-! ## Claims C1 to C3: coordinator behaviour -/

/-- The number of jobs submitted to the refresh pipeline among a list of
effects. -/
def submitCount (effs : List Effect) : Nat :=
  (effs.filter (fun e => match e with | .submitJob _ _ => true | _ => false)).length

lemma contains_filter_ne_self (l : List Nat) (id : Nat) :
    (l.filter (fun x => x != id)).contains id = false := by
  induction l with
  | nil => rfl
  | cons a l ih =>
      by_cases h : a = id
      · simp only [List.filter_cons, h]
        simpa using ih
      · simp only [List.filter_cons]
        have hne : (a != id) = true := by simp [h]
        rw [hne]
        simp only [if_true, List.contains_cons]
        have : (id == a) = false := beq_eq_false_iff_ne.mpr (fun hc => h hc.symm)
        simp [this, ih]

lemma mark_refreshing_is (m : CredentialManager) (id : Nat) :
    (m.mark_refreshing id).is_refreshing id = true := by
  unfold CredentialManager.mark_refreshing CredentialManager.is_refreshing
  dsimp only
  by_cases h : m.refreshing.contains id = true
  · rw [if_pos h]
    exact h
  · rw [if_neg h]
    simp [List.contains_cons]

lemma submitCount_le_length (effs : List Effect) :
    submitCount effs ≤ effs.length :=
  List.length_filter_le _ _

lemma add_credential_not_refreshing (m : CredentialManager) (id : Nat)
    (c : GoogleCredential) (keys : List String) :
    (m.add_credential id c keys).is_refreshing id = false := by
  unfold CredentialManager.add_credential CredentialManager.is_refreshing
  exact contains_filter_ne_self m.refreshing id

lemma find?_assoc_replace (l : List (Nat × GoogleCredential)) (id : Nat)
    (c : GoogleCredential) (h : l.any (fun e => e.1 == id) = true) :
    (l.map (fun e => if e.1 == id then (id, c) else e)).find?
      (fun e => e.1 == id) = some (id, c) := by
  induction l with
  | nil => simp at h
  | cons a l ih =>
      by_cases ha : a.1 = id
      · simp only [List.map_cons]
        have : (a.1 == id) = true := by simp [ha]
        rw [this]
        exact List.find?_cons_of_pos _ (by simp)
      · simp only [List.map_cons]
        have hb : (a.1 == id) = false := by simp [ha]
        rw [hb]
        simp only [Bool.false_eq_true, if_false]
        rw [List.find?_cons_of_neg _ (by simp [ha])]
        apply ih
        simp only [List.any_cons, hb, Bool.false_or] at h
        exact h

lemma add_credential_copy (m : CredentialManager) (id : Nat)
    (c : GoogleCredential) (keys : List String) :
    (m.add_credential id c keys).get_full_credential_copy id = some c := by
  unfold CredentialManager.add_credential CredentialManager.get_full_credential_copy
  dsimp only
  by_cases hany : (m.records.any (fun e => e.1 == id)) = true
  · rw [if_pos hany, find?_assoc_replace m.records id c hany]
    rfl
  · rw [if_neg hany]
    have hnone : m.records.find? (fun e => e.1 == id) = none := by
      apply List.find?_eq_none.mpr
      intro e he hpe
      exact hany (List.any_eq_true.mpr ⟨e, he, hpe⟩)
    rw [List.find?_append, hnone]
    simp

lemma mark_refreshing_copy (m : CredentialManager) (id id2 : Nat) :
    (m.mark_refreshing id2).get_full_credential_copy id =
      m.get_full_credential_copy id := rfl

/-- C2: two successive `ReportInvalid(id)` turns of the coordinator, with
no other message in between, submit at most one refresh job in total; and
whenever the refreshing mark is set after the first turn (as it is whenever
the first turn submitted its job), the second turn is a no-op. -/
theorem C2_duplicate_report_invalid (s : ActorState) (id : Nat)
    (e1 e2 : MsgEnv) (h1 : e1.msg = .reportInvalid id)
    (h2 : e2.msg = .reportInvalid id) :
    submitCount ((actorStep s e1).2 ++ (actorStep (actorStep s e1).1 e2).2) ≤ 1 ∧
    ((actorStep s e1).1.manager.is_refreshing id = true →
      actorStep (actorStep s e1).1 e2 = ((actorStep s e1).1, [])) := by
  have hstep : ∀ (st : ActorState) (me : MsgEnv), me.msg = .reportInvalid id →
      actorStep st me = handleReportInvalid st id (me.sendOk 0) := by
    intro st me hm
    unfold actorStep
    rw [hm]
  rw [hstep s e1 h1, hstep _ e2 h2]
  by_cases hr : s.manager.is_refreshing id = true
  · have hfirst : handleReportInvalid s id (e1.sendOk 0) = (s, []) := by
      unfold handleReportInvalid
      rw [if_pos hr]
    rw [hfirst]
    dsimp only
    have hsecond : handleReportInvalid s id (e2.sendOk 0) = (s, []) := by
      unfold handleReportInvalid
      rw [if_pos hr]
    rw [hsecond]
    exact ⟨by simp [submitCount], fun _ => rfl⟩
  · cases hc : s.manager.get_full_credential_copy id with
    | none =>
        have hfirst : handleReportInvalid s id (e1.sendOk 0) = (s, []) := by
          unfold handleReportInvalid
          rw [if_neg hr, hc]
        rw [hfirst]
        dsimp only
        have hsecond : handleReportInvalid s id (e2.sendOk 0) = (s, []) := by
          unfold handleReportInvalid
          rw [if_neg hr, hc]
        rw [hsecond]
        exact ⟨by simp [submitCount], fun _ => rfl⟩
    | some current =>
        by_cases hok : e1.sendOk 0 = true
        · have hfirst : handleReportInvalid s id (e1.sendOk 0) =
              ({ s with manager := s.manager.mark_refreshing id },
               [.submitJob id current]) := by
            unfold handleReportInvalid
            rw [if_neg hr, hc]
            dsimp only
            rw [if_pos hok]
          rw [hfirst]
          dsimp only
          have hsecond : handleReportInvalid
              ({ s with manager := s.manager.mark_refreshing id }) id (e2.sendOk 0) =
              (({ s with manager := s.manager.mark_refreshing id } : ActorState), []) := by
            unfold handleReportInvalid
            rw [if_pos (mark_refreshing_is s.manager id)]
          rw [hsecond]
          exact ⟨by simp [submitCount], fun _ => rfl⟩
        · have hfirst : handleReportInvalid s id (e1.sendOk 0) =
              ({ s with manager :=
                  (s.manager.mark_refreshing id).add_credential id current s.queue_keys },
               []) := by
            unfold handleReportInvalid
            rw [if_neg hr, hc]
            dsimp only
            rw [if_neg hok]
          rw [hfirst]
          dsimp only
          have hnr := add_credential_not_refreshing
            (s.manager.mark_refreshing id) id current s.queue_keys
          have hcopy := add_credential_copy
            (s.manager.mark_refreshing id) id current s.queue_keys
          refine ⟨?_, ?_⟩
          · have hsecond2 : (handleReportInvalid
                { s with manager :=
                  (s.manager.mark_refreshing id).add_credential id current s.queue_keys }
                id (e2.sendOk 0)).2.length ≤ 1 := by
              unfold handleReportInvalid
              rw [if_neg (by rw [hnr]; simp), hcopy]
              dsimp only
              by_cases hok2 : e2.sendOk 0 = true
              · rw [if_pos hok2]
                simp
              · rw [if_neg hok2]
                simp
            simp only [List.nil_append]
            exact le_trans (submitCount_le_length _) hsecond2
          · intro hcontra
            rw [hnr] at hcontra
            cases hcontra

/-- Concrete coordinator state used by witnesses: one record (id 1) queued
for model "m". -/
def c2state : ActorState :=
  { manager := { records := [(1, cred0)], queues := [("m", [1])],
                 cooldowns := [], refreshing := [] },
    queue_keys := ["m"] }

/-- Concrete `ReportInvalid(1)` turn whose pipeline enqueue succeeds. -/
def c2env : MsgEnv :=
  { msg := .reportInvalid 1, now := 0, sendOk := fun _ => true }

/-- C2 witness: at the concrete state, the second consecutive
`ReportInvalid(1)` turn is a no-op and the two turns submit at most one
job. -/
theorem C2_duplicate_report_invalid_witness :
    actorStep (actorStep c2state c2env).1 c2env = ((actorStep c2state c2env).1, []) ∧
    submitCount ((actorStep c2state c2env).2 ++
      (actorStep (actorStep c2state c2env).1 c2env).2) ≤ 1 :=
  ⟨(C2_duplicate_report_invalid c2state 1 c2env c2env rfl rfl).2 rfl,
   (C2_duplicate_report_invalid c2state 1 c2env c2env rfl rfl).1⟩

/-- C1: processing `RefreshComplete(id, result)`: when id is not in the
refreshing set the turn has no effect (stale); on `Ok(updated)` the manager
installs the record via `add_credential(id, updated, model_keys)` and the
store receives `update_by_id(id, updated, true)`; on `Err(Oauth2Server)`
the manager deletes the credential and the store receives
`set_status(id, false)`; on every other error the previously known record
is re-installed into the queues and no store write happens. -/
theorem C1_refresh_complete_effects (s : ActorState) (id : Nat)
    (res : Except NexusError GoogleCredential) (me : MsgEnv)
    (hmsg : me.msg = .refreshComplete id res) :
    (s.manager.is_refreshing id = false → actorStep s me = (s, [])) ∧
    (s.manager.is_refreshing id = true →
      (∀ u, res = .ok u →
        actorStep s me =
          ({ s with manager := s.manager.add_credential id u s.queue_keys },
           [.dbUpdateById id u true])) ∧
      (∀ emsg, res = .error (.oauth2Server emsg) →
        actorStep s me =
          ({ s with manager := s.manager.delete_credential id },
           [.dbSetStatus id false])) ∧
      (∀ err, res = .error err → (∀ emsg, err ≠ .oauth2Server emsg) →
        ∀ existing, s.manager.get_full_credential_copy id = some existing →
          actorStep s me =
            ({ s with manager := s.manager.add_credential id existing s.queue_keys },
             []))) := by
  have hstep : actorStep s me = handleRefreshComplete s id res := by
    unfold actorStep
    rw [hmsg]
  rw [hstep]
  unfold handleRefreshComplete
  constructor
  · intro hfalse
    rw [if_pos (by rw [hfalse]; simp)]
  · intro htrue
    rw [if_neg (by rw [htrue]; simp)]
    refine ⟨?_, ?_, ?_⟩
    · intro u hres
      rw [hres]
    · intro emsg hres
      rw [hres]
    · intro err hres hne existing hcopy
      rw [hres]
      cases err with
      | oauth2Server emsg => exact absurd rfl (hne emsg)
      | urlParse msg => dsimp only; rw [hcopy]
      | reqwest msg => dsimp only; rw [hcopy]
      | json msg => dsimp only; rw [hcopy]
      | missingAccessToken => dsimp only; rw [hcopy]
      | missingEmailInUserinfo => dsimp only; rw [hcopy]
      | oauth2Token msg => dsimp only; rw [hcopy]
      | noAvailableCredential => dsimp only; rw [hcopy]
      | ractorError msg => dsimp only; rw [hcopy]
      | databaseError msg => dsimp only; rw [hcopy]
      | upstreamStatus code => dsimp only; rw [hcopy]
      | geminiServerError e => dsimp only; rw [hcopy]

/-- Concrete coordinator state for the C1 witness: id 1 is refreshing. -/
def c1state : ActorState :=
  { manager := { records := [(1, cred0)], queues := [("m", [])],
                 cooldowns := [], refreshing := [1] },
    queue_keys := ["m"] }

/-- Concrete `RefreshComplete(1, Ok(cred0))` turn. -/
def c1env : MsgEnv :=
  { msg := .refreshComplete 1 (.ok cred0), now := 0, sendOk := fun _ => true }

/-- C1 witness: at the concrete refreshing state, the successful refresh
re-installs the credential and writes it back with status true. -/
theorem C1_refresh_complete_effects_witness :
    actorStep c1state c1env =
      ({ c1state with
         manager := c1state.manager.add_credential 1 cred0 c1state.queue_keys },
       [.dbUpdateById 1 cred0 true]) :=
  ((C1_refresh_complete_effects c1state 1 (.ok cred0) c1env rfl).2 rfl).1 cred0 rfl

/-- The credential id is gone from the manager: no record, queued nowhere,
not refreshing. -/
def idAbsent (m : CredentialManager) (id : Nat) : Prop :=
  (∀ e ∈ m.records, e.1 ≠ id) ∧ (∀ q ∈ m.queues, id ∉ q.2) ∧ id ∉ m.refreshing

/-- Every store row for the id has status false. -/
def storeBanned (st : CredStore) (id : Nat) : Prop :=
  ∀ r ∈ st.rows, r.id = id → r.status = false

/-- The effect cannot resurrect the id in the store: it never writes a row
for this id except `set_status(id, false)`. -/
def storeSafe (id : Nat) : Effect → Prop
  | .dbUpdateById i _ _ => i ≠ id
  | .dbSetStatus i b => i ≠ id ∨ b = false
  | _ => True

/-- A `GetCredential` reply does not hand out the id. -/
def replyNotId (id : Nat) : Effect → Prop
  | .replyAssigned (some a) => a.id ≠ id
  | _ => True

lemma delete_idAbsent (m : CredentialManager) (id : Nat) :
    idAbsent (m.delete_credential id) id := by
  unfold CredentialManager.delete_credential idAbsent
  refine ⟨?_, ?_, ?_⟩
  · intro e he
    have := (List.mem_filter.mp he).2
    simpa using this
  · intro q hq
    rcases List.mem_map.mp hq with ⟨q0, _, rfl⟩
    intro hid
    have := (List.mem_filter.mp hid).2
    simp at this
  · intro hid
    have := (List.mem_filter.mp hid).2
    simp at this

lemma delete_preserves_idAbsent (m : CredentialManager) (id id2 : Nat)
    (h : idAbsent m id) : idAbsent (m.delete_credential id2) id := by
  obtain ⟨h1, h2, h3⟩ := h
  unfold CredentialManager.delete_credential idAbsent
  refine ⟨?_, ?_, ?_⟩
  · intro e he
    exact h1 e (List.mem_filter.mp he).1
  · intro q hq
    rcases List.mem_map.mp hq with ⟨q0, hq0, rfl⟩
    intro hid
    exact h2 q0 hq0 (List.mem_filter.mp hid).1
  · intro hid
    exact h3 (List.mem_filter.mp hid).1

lemma setQueue_absent (qs : List (String × List Nat)) (k : String)
    (f : List Nat → List Nat) (id : Nat)
    (hf : ∀ l, id ∉ l → id ∉ f l) (h : ∀ q ∈ qs, id ∉ q.2) :
    ∀ q ∈ setQueue qs k f, id ∉ q.2 := by
  unfold setQueue
  by_cases hany : (qs.any (fun q => q.1 == k)) = true
  · rw [if_pos hany]
    intro q hq
    rcases List.mem_map.mp hq with ⟨q0, hq0, rfl⟩
    by_cases hk : (q0.1 == k) = true
    · simp only [hk, if_true]
      exact hf q0.2 (h q0 hq0)
    · simp only [hk]
      simp only [Bool.false_eq_true, if_false]
      exact h q0 hq0
  · rw [if_neg hany]
    intro q hq
    rcases List.mem_append.mp hq with hq | hq
    · exact h q hq
    · have : q = (k, f []) := by simpa using hq
      rw [this]
      exact hf [] (by simp)

lemma foldl_setQueue_absent (keys : List String) (id id2 : Nat) (hne : id2 ≠ id) :
    ∀ qs, (∀ q ∈ qs, id ∉ q.2) →
      ∀ q ∈ keys.foldl
        (fun qs k => setQueue qs k (fun q => if q.contains id2 then q else q ++ [id2]))
        qs, id ∉ q.2 := by
  induction keys with
  | nil => intro qs h q hq; exact h q hq
  | cons k keys ih =>
      intro qs h
      apply ih
      apply setQueue_absent
      · intro l hl
        by_cases hc : (l.contains id2) = true
        · simp only [hc, if_true]
          exact hl
        · simp only [hc, Bool.false_eq_true, if_false]
          intro hmem
          rcases List.mem_append.mp hmem with hmem | hmem
          · exact hl hmem
          · simp at hmem
            exact hne hmem.symm
      · exact h

lemma add_preserves_idAbsent (m : CredentialManager) (id id2 : Nat)
    (c : GoogleCredential) (keys : List String) (hne : id2 ≠ id)
    (h : idAbsent m id) : idAbsent (m.add_credential id2 c keys) id := by
  obtain ⟨h1, h2, h3⟩ := h
  unfold CredentialManager.add_credential idAbsent
  dsimp only
  refine ⟨?_, ?_, ?_⟩
  · by_cases hany : (m.records.any (fun e => e.1 == id2)) = true
    · rw [if_pos hany]
      intro e he
      rcases List.mem_map.mp he with ⟨e0, he0, rfl⟩
      by_cases hk : (e0.1 == id2) = true
      · simp only [hk, if_true]
        exact hne
      · simp only [hk, Bool.false_eq_true, if_false]
        exact h1 e0 he0
    · rw [if_neg hany]
      intro e he
      rcases List.mem_append.mp he with he | he
      · exact h1 e he
      · have : e = (id2, c) := by simpa using he
        rw [this]
        exact hne
  · exact foldl_setQueue_absent keys id id2 hne m.queues h2
  · intro hid
    exact h3 (List.mem_filter.mp hid).1

lemma mark_preserves_idAbsent (m : CredentialManager) (id id2 : Nat)
    (hne : id2 ≠ id) (h : idAbsent m id) :
    idAbsent (m.mark_refreshing id2) id := by
  obtain ⟨h1, h2, h3⟩ := h
  unfold CredentialManager.mark_refreshing idAbsent
  refine ⟨h1, ?_, ?_⟩
  · intro q hq
    rcases List.mem_map.mp hq with ⟨q0, hq0, rfl⟩
    intro hid
    exact h2 q0 hq0 (List.mem_filter.mp hid).1
  · dsimp only
    by_cases hc : (m.refreshing.contains id2) = true
    · rw [if_pos hc]
      exact h3
    · rw [if_neg hc]
      intro hid
      rcases List.mem_cons.mp hid with heq | hid
      · exact hne heq.symm
      · exact h3 hid

lemma rrl_preserves_idAbsent (m : CredentialManager) (id id2 : Nat)
    (key : String) (cd now : Int) (h : idAbsent m id) :
    idAbsent (m.report_rate_limit id2 key cd now) id := by
  obtain ⟨h1, h2, h3⟩ := h
  unfold CredentialManager.report_rate_limit mapQueue idAbsent
  refine ⟨h1, ?_, h3⟩
  intro q hq
  rcases List.mem_map.mp hq with ⟨q0, hq0, rfl⟩
  by_cases hk : (q0.1 == key) = true
  · simp only [hk, if_true]
    intro hid
    apply h2 q0 hq0
    revert hid
    cases q0.2 with
    | nil => intro hid; exact hid
    | cons x rest =>
        by_cases hx : (x == id2) = true
        · simp only [hx, if_true]
          intro hid
          exact List.mem_cons_of_mem x hid
        · simp only [hx, Bool.false_eq_true, if_false]
          intro hid
          exact hid
  · simp only [hk, Bool.false_eq_true, if_false]
    exact h2 q0 hq0

lemma assignScan_queue_subset (recs : List (Nat × GoogleCredential)) (now : Int)
    (key : String) :
    ∀ (q : List Nat) (cds : List ((Nat × String) × Int)),
      ∀ x ∈ (assignScan recs now key q cds).queue, x ∈ q := by
  intro q
  induction q with
  | nil => intro cds x hx; simp [assignScan] at hx
  | cons idq rest ih =>
      intro cds x hx
      unfold assignScan at hx
      by_cases hcd : (cdActive cds idq key now) = true
      · rw [if_pos hcd] at hx
        dsimp only at hx
        rcases List.mem_cons.mp hx with rfl | hx
        · exact List.mem_cons_self _ _
        · exact List.mem_cons_of_mem _ (ih _ x hx)
      · rw [if_neg hcd] at hx
        dsimp only at hx
        cases hfind : recs.find? (fun e => e.1 == idq) with
        | none =>
            rw [hfind] at hx
            dsimp only at hx
            exact List.mem_cons_of_mem _ (ih _ x hx)
        | some rec =>
            rw [hfind] at hx
            dsimp only at hx
            by_cases hbad : (rec.2.access_token.isNone || decide (rec.2.expiry - 30 ≤ now)) = true
            · rw [if_pos hbad] at hx
              exact List.mem_cons_of_mem _ (ih _ x hx)
            · rw [if_neg hbad] at hx
              dsimp only at hx
              rcases List.mem_append.mp hx with hx | hx
              · exact List.mem_cons_of_mem _ hx
              · have : x = idq := by simpa using hx
                rw [this]
                exact List.mem_cons_self _ _

lemma queueOf_absent (qs : List (String × List Nat)) (key : String) (id : Nat)
    (h : ∀ q ∈ qs, id ∉ q.2) : id ∉ queueOf qs key := by
  unfold queueOf
  cases hfind : qs.find? (fun q => q.1 == key) with
  | none => simp
  | some q0 =>
      have := List.mem_of_find?_eq_some hfind
      simpa using h q0 this

lemma get_assigned_preserves (m : CredentialManager) (id : Nat) (key : String)
    (now : Int) (h : idAbsent m id) :
    idAbsent (m.get_assigned key now).1 id ∧
    (∀ a, (m.get_assigned key now).2.assigned = some a → a.id ≠ id) := by
  obtain ⟨h1, h2, h3⟩ := h
  unfold CredentialManager.get_assigned
  dsimp only
  constructor
  · refine ⟨h1, ?_, h3⟩
    intro q hq
    unfold mapQueue at hq
    rcases List.mem_map.mp hq with ⟨q0, hq0, rfl⟩
    by_cases hk : (q0.1 == key) = true
    · simp only [hk, if_true]
      intro hid
      have hsub := assignScan_queue_subset m.records now key
        (queueOf m.queues key) m.cooldowns id hid
      exact queueOf_absent m.queues key id h2 hsub
    · simp only [hk, Bool.false_eq_true, if_false]
      exact h2 q0 hq0
  · intro a ha
    rcases Option.bind_eq_some.mp ha with ⟨aid, _, hmap⟩
    rcases Option.map_eq_some'.mp hmap with ⟨e, hfind, hae⟩
    have hmem := List.mem_of_find?_eq_some hfind
    have : a.id = aid := by rw [← hae]
    rw [this]
    have he1 : e.1 = aid := by simpa using List.find?_some hfind
    rw [← he1]
    exact h1 e hmem

lemma copy_none_of_absent (m : CredentialManager) (id : Nat)
    (h1 : ∀ e ∈ m.records, e.1 ≠ id) :
    m.get_full_credential_copy id = none := by
  unfold CredentialManager.get_full_credential_copy
  rw [List.find?_eq_none.mpr (fun e he => by simp [h1 e he])]
  rfl

lemma not_refreshing_of_absent (m : CredentialManager) (id : Nat)
    (h3 : id ∉ m.refreshing) : m.is_refreshing id = false := by
  unfold CredentialManager.is_refreshing
  rw [Bool.eq_false_iff]
  intro hc
  exact h3 (by simpa using hc)

lemma contains_false_of_absent (m : CredentialManager) (id : Nat)
    (h1 : ∀ e ∈ m.records, e.1 ≠ id) : m.contains id = false := by
  unfold CredentialManager.contains
  rw [Bool.eq_false_iff]
  intro hc
  rcases List.any_eq_true.mp hc with ⟨e, he, hpe⟩
  exact h1 e he (by simpa using hpe)

lemma hri_preserves (s : ActorState) (id rid : Nat) (ok : Bool)
    (h : idAbsent s.manager id) :
    idAbsent (handleReportInvalid s rid ok).1.manager id ∧
    (∀ e ∈ (handleReportInvalid s rid ok).2, storeSafe id e ∧ replyNotId id e) := by
  unfold handleReportInvalid
  by_cases hr : (s.manager.is_refreshing rid) = true
  · rw [if_pos hr]
    exact ⟨h, by simp⟩
  · rw [if_neg hr]
    cases hc : s.manager.get_full_credential_copy rid with
    | none => exact ⟨h, by simp⟩
    | some current =>
        have hrid : rid ≠ id := by
          intro hcontra
          rw [hcontra, copy_none_of_absent s.manager id h.1] at hc
          cases hc
        dsimp only
        by_cases hok : ok = true
        · rw [if_pos hok]
          refine ⟨mark_preserves_idAbsent _ _ _ hrid h, ?_⟩
          intro e he
          have : e = .submitJob rid current := by simpa using he
          rw [this]
          exact ⟨trivial, trivial⟩
        · rw [if_neg hok]
          exact ⟨add_preserves_idAbsent _ _ _ _ _ hrid
            (mark_preserves_idAbsent _ _ _ hrid h), by simp⟩

lemma fold_hri_preserves (id : Nat) (sendOk : Nat → Bool) (rids : List Nat) :
    ∀ (s0 : ActorState) (effs0 : List Effect) (i0 : Nat),
      idAbsent s0.manager id →
      (∀ e ∈ effs0, storeSafe id e ∧ replyNotId id e) →
      idAbsent (rids.foldl
        (fun (acc : ActorState × List Effect × Nat) rid =>
          ((handleReportInvalid acc.1 rid (sendOk acc.2.2)).1,
           acc.2.1 ++ (handleReportInvalid acc.1 rid (sendOk acc.2.2)).2,
           acc.2.2 + 1)) (s0, effs0, i0)).1.manager id ∧
      (∀ e ∈ (rids.foldl
        (fun (acc : ActorState × List Effect × Nat) rid =>
          ((handleReportInvalid acc.1 rid (sendOk acc.2.2)).1,
           acc.2.1 ++ (handleReportInvalid acc.1 rid (sendOk acc.2.2)).2,
           acc.2.2 + 1)) (s0, effs0, i0)).2.1,
        storeSafe id e ∧ replyNotId id e) := by
  induction rids with
  | nil =>
      intro s0 effs0 i0 hP hE
      exact ⟨hP, hE⟩
  | cons rid rids ih =>
      intro s0 effs0 i0 hP hE
      rw [List.foldl_cons]
      dsimp only
      rcases hstep : handleReportInvalid s0 rid (sendOk i0) with ⟨s1, e1⟩
      have hpr := hri_preserves s0 id rid (sendOk i0) hP
      rw [hstep] at hpr
      apply ih s1 (effs0 ++ e1) (i0 + 1) hpr.1
      intro e he
      rcases List.mem_append.mp he with he | he
      · exact hE e he
      · exact hpr.2 e he

lemma actorStep_preserves (s : ActorState) (me : MsgEnv) (id : Nat)
    (hP : idAbsent s.manager id)
    (hact : ∀ c, me.msg ≠ .activateCredential id c) :
    idAbsent (actorStep s me).1.manager id ∧
    (∀ e ∈ (actorStep s me).2, storeSafe id e ∧ replyNotId id e) := by
  cases hm : me.msg with
  | getCredential model =>
      have hstep : actorStep s me = handleGetCredential s model me.now me.sendOk := by
        unfold actorStep
        rw [hm]
      rw [hstep]
      unfold handleGetCredential
      dsimp only
      have hgp := get_assigned_preserves s.manager id model me.now hP
      have hfold := fold_hri_preserves id me.sendOk
        (s.manager.get_assigned model me.now).2.refresh_ids
        { s with manager := (s.manager.get_assigned model me.now).1 } [] 0 hgp.1 (by simp)
      refine ⟨hfold.1, ?_⟩
      intro e he
      rcases List.mem_append.mp he with he | he
      · exact hfold.2 e he
      · have : e = .replyAssigned (s.manager.get_assigned model me.now).2.assigned := by
          simpa using he
        rw [this]
        refine ⟨trivial, ?_⟩
        cases ha : (s.manager.get_assigned model me.now).2.assigned with
        | none => exact trivial
        | some a =>
            show a.id ≠ id
            exact hgp.2 a ha
  | reportRateLimit id2 cd model =>
      have hstep : actorStep s me = handleReportRateLimit s id2 cd model me.now := by
        unfold actorStep
        rw [hm]
      rw [hstep]
      unfold handleReportRateLimit
      by_cases hc : (s.manager.contains id2) = true
      · rw [if_pos hc]
        exact ⟨rrl_preserves_idAbsent _ _ _ _ _ _ hP, by simp⟩
      · rw [if_neg hc]
        exact ⟨hP, by simp⟩
  | reportInvalid rid =>
      have hstep : actorStep s me = handleReportInvalid s rid (me.sendOk 0) := by
        unfold actorStep
        rw [hm]
      rw [hstep]
      exact hri_preserves s id rid (me.sendOk 0) hP
  | reportBaned id2 =>
      have hstep : actorStep s me = handleReportBaned s id2 := by
        unfold actorStep
        rw [hm]
      rw [hstep]
      unfold handleReportBaned
      refine ⟨?_, ?_⟩
      · by_cases hid : id2 = id
        · rw [hid]
          exact delete_idAbsent s.manager id
        · exact delete_preserves_idAbsent _ _ _ hP
      · intro e he
        have : e = .dbSetStatus id2 false := by simpa using he
        rw [this]
        exact ⟨Or.inr rfl, trivial⟩
  | refreshComplete id2 res =>
      have hstep : actorStep s me = handleRefreshComplete s id2 res := by
        unfold actorStep
        rw [hm]
      rw [hstep]
      unfold handleRefreshComplete
      by_cases hid : id2 = id
      · rw [hid, if_pos (by rw [not_refreshing_of_absent s.manager id hP.2.2]; simp)]
        exact ⟨hP, by simp⟩
      · by_cases hr : (s.manager.is_refreshing id2) = true
        · rw [if_neg (by rw [hr]; simp)]
          cases res with
          | ok u =>
              refine ⟨add_preserves_idAbsent _ _ _ _ _ hid hP, ?_⟩
              intro e he
              have : e = .dbUpdateById id2 u true := by simpa using he
              rw [this]
              exact ⟨hid, trivial⟩
          | error err =>
              cases err with
              | oauth2Server emsg =>
                  refine ⟨delete_preserves_idAbsent _ _ _ hP, ?_⟩
                  intro e he
                  have : e = .dbSetStatus id2 false := by simpa using he
                  rw [this]
                  exact ⟨Or.inl hid, trivial⟩
              | urlParse msg =>
                  dsimp only
                  cases hcopy : s.manager.get_full_credential_copy id2 with
                  | none => exact ⟨hP, by simp⟩
                  | some existing =>
                      exact ⟨add_preserves_idAbsent _ _ _ _ _ hid hP, by simp⟩
              | reqwest msg =>
                  dsimp only
                  cases hcopy : s.manager.get_full_credential_copy id2 with
                  | none => exact ⟨hP, by simp⟩
                  | some existing =>
                      exact ⟨add_preserves_idAbsent _ _ _ _ _ hid hP, by simp⟩
              | json msg =>
                  dsimp only
                  cases hcopy : s.manager.get_full_credential_copy id2 with
                  | none => exact ⟨hP, by simp⟩
                  | some existing =>
                      exact ⟨add_preserves_idAbsent _ _ _ _ _ hid hP, by simp⟩
              | missingAccessToken =>
                  dsimp only
                  cases hcopy : s.manager.get_full_credential_copy id2 with
                  | none => exact ⟨hP, by simp⟩
                  | some existing =>
                      exact ⟨add_preserves_idAbsent _ _ _ _ _ hid hP, by simp⟩
              | missingEmailInUserinfo =>
                  dsimp only
                  cases hcopy : s.manager.get_full_credential_copy id2 with
                  | none => exact ⟨hP, by simp⟩
                  | some existing =>
                      exact ⟨add_preserves_idAbsent _ _ _ _ _ hid hP, by simp⟩
              | oauth2Token msg =>
                  dsimp only
                  cases hcopy : s.manager.get_full_credential_copy id2 with
                  | none => exact ⟨hP, by simp⟩
                  | some existing =>
                      exact ⟨add_preserves_idAbsent _ _ _ _ _ hid hP, by simp⟩
              | noAvailableCredential =>
                  dsimp only
                  cases hcopy : s.manager.get_full_credential_copy id2 with
                  | none => exact ⟨hP, by simp⟩
                  | some existing =>
                      exact ⟨add_preserves_idAbsent _ _ _ _ _ hid hP, by simp⟩
              | ractorError msg =>
                  dsimp only
                  cases hcopy : s.manager.get_full_credential_copy id2 with
                  | none => exact ⟨hP, by simp⟩
                  | some existing =>
                      exact ⟨add_preserves_idAbsent _ _ _ _ _ hid hP, by simp⟩
              | databaseError msg =>
                  dsimp only
                  cases hcopy : s.manager.get_full_credential_copy id2 with
                  | none => exact ⟨hP, by simp⟩
                  | some existing =>
                      exact ⟨add_preserves_idAbsent _ _ _ _ _ hid hP, by simp⟩
              | upstreamStatus code =>
                  dsimp only
                  cases hcopy : s.manager.get_full_credential_copy id2 with
                  | none => exact ⟨hP, by simp⟩
                  | some existing =>
                      exact ⟨add_preserves_idAbsent _ _ _ _ _ hid hP, by simp⟩
              | geminiServerError ge =>
                  dsimp only
                  cases hcopy : s.manager.get_full_credential_copy id2 with
                  | none => exact ⟨hP, by simp⟩
                  | some existing =>
                      exact ⟨add_preserves_idAbsent _ _ _ _ _ hid hP, by simp⟩
        · rw [if_pos (by rw [Bool.eq_false_iff.mpr hr]; simp)]
          exact ⟨hP, by simp⟩
  | activateCredential id2 c =>
      have hstep : actorStep s me =
          ({ s with manager := s.manager.add_credential id2 c s.queue_keys }, []) := by
        unfold actorStep
        rw [hm]
      rw [hstep]
      have hid : id2 ≠ id := by
        intro hcontra
        exact hact c (by rw [hm, hcontra])
      exact ⟨add_preserves_idAbsent _ _ _ _ _ hid hP, by simp⟩
  | submitCredentials creds =>
      have hstep : actorStep s me = (s, []) := by
        unfold actorStep
        rw [hm]
      rw [hstep]
      exact ⟨hP, by simp⟩

lemma applyEffect_preserves_banned (st : CredStore) (id : Nat) (e : Effect)
    (hQ : storeBanned st id) (hs : storeSafe id e) :
    storeBanned (applyEffect st e) id := by
  cases e with
  | submitJob i c => exact hQ
  | replyAssigned a => exact hQ
  | dbUpdateById i c b =>
      intro r hr hid
      unfold applyEffect CredStore.update_by_id at hr
      dsimp only at hr
      rcases List.mem_map.mp hr with ⟨r0, hr0, rfl⟩
      by_cases hi : (r0.id == i) = true
      · simp only [hi, if_true] at hid ⊢
        exact absurd (by simpa [storedRow] using hid) hs
      · simp only [hi, Bool.false_eq_true, if_false] at hid ⊢
        exact hQ r0 hr0 hid
  | dbSetStatus i b =>
      intro r hr hid
      unfold applyEffect CredStore.set_status at hr
      dsimp only at hr
      rcases List.mem_map.mp hr with ⟨r0, hr0, rfl⟩
      by_cases hi : (r0.id == i) = true
      · simp only [hi, if_true] at hid ⊢
        rcases hs with hs | hs
        · have hri : r0.id = i := by simpa using hi
          have hid2 : r0.id = id := by simpa using hid
          exact absurd (hri ▸ hid2) hs
        · exact hs
      · simp only [hi, Bool.false_eq_true, if_false] at hid ⊢
        exact hQ r0 hr0 hid

lemma foldl_applyEffect_preserves (id : Nat) (effs : List Effect) :
    ∀ (st : CredStore), storeBanned st id → (∀ e ∈ effs, storeSafe id e) →
      storeBanned (effs.foldl applyEffect st) id := by
  induction effs with
  | nil => intro st hQ _; exact hQ
  | cons e effs ih =>
      intro st hQ hall
      rw [List.foldl_cons]
      exact ih (applyEffect st e)
        (applyEffect_preserves_banned st id e hQ (hall e (List.mem_cons_self e effs)))
        (fun e2 he2 => hall e2 (List.mem_cons_of_mem e he2))

lemma set_status_false_banned (st : CredStore) (id : Nat) :
    storeBanned (st.set_status id false) id := by
  intro r hr hid
  unfold CredStore.set_status at hr
  dsimp only at hr
  rcases List.mem_map.mp hr with ⟨r0, hr0, rfl⟩
  by_cases hi : (r0.id == id) = true
  · rw [if_pos hi]
  · rw [if_neg hi] at hid ⊢
    exact absurd hid (by simpa using hi)

lemma sysStep_preserves (s : SysState) (me : MsgEnv) (id : Nat)
    (hP : idAbsent s.actor.manager id) (hQ : storeBanned s.store id)
    (hact : ∀ c, me.msg ≠ .activateCredential id c) :
    idAbsent (sysStep s me).1.actor.manager id ∧
    storeBanned (sysStep s me).1.store id ∧
    (∀ e ∈ (sysStep s me).2, replyNotId id e) := by
  have hap := actorStep_preserves s.actor me id hP hact
  unfold sysStep
  rcases hstep : actorStep s.actor me with ⟨a1, effs⟩
  rw [hstep] at hap
  dsimp only
  exact ⟨hap.1,
    foldl_applyEffect_preserves id effs s.store hQ (fun e he => (hap.2 e he).1),
    fun e he => (hap.2 e he).2⟩

lemma ban_establishes (s : SysState) (me : MsgEnv) (id : Nat)
    (hmsg : me.msg = .reportBaned id) :
    idAbsent (sysStep s me).1.actor.manager id ∧
    storeBanned (sysStep s me).1.store id := by
  have hstep : actorStep s.actor me = handleReportBaned s.actor id := by
    unfold actorStep
    rw [hmsg]
  unfold sysStep
  rw [hstep]
  unfold handleReportBaned
  dsimp only
  exact ⟨delete_idAbsent s.actor.manager id, set_status_false_banned s.store id⟩

lemma runTrace_preserves (id : Nat) (msgs : List MsgEnv) :
    ∀ (s : SysState), idAbsent s.actor.manager id → storeBanned s.store id →
      (∀ me ∈ msgs, ∀ c, me.msg ≠ .activateCredential id c) →
      idAbsent (runTrace s msgs).1.actor.manager id ∧
      storeBanned (runTrace s msgs).1.store id ∧
      (∀ e ∈ (runTrace s msgs).2, replyNotId id e) := by
  induction msgs with
  | nil =>
      intro s hP hQ _
      exact ⟨hP, hQ, by simp [runTrace]⟩
  | cons me msgs ih =>
      intro s hP hQ hact
      have hfirst := sysStep_preserves s me id hP hQ
        (hact me (List.mem_cons_self me msgs))
      unfold runTrace
      rcases hstep : sysStep s me with ⟨s1, e1⟩
      rw [hstep] at hfirst
      have hrest := ih s1 hfirst.1 hfirst.2.1
        (fun me2 hme2 => hact me2 (List.mem_cons_of_mem me hme2))
      dsimp only
      refine ⟨hrest.1, hrest.2.1, ?_⟩
      intro e he
      rcases List.mem_append.mp he with he | he
      · exact hfirst.2.2 e he
      · exact hrest.2.2 e he

lemma list_active_excludes (st : CredStore) (id : Nat) (hQ : storeBanned st id) :
    ∀ r ∈ st.list_active, r.id ≠ id := by
  intro r hr hid
  have hm := List.mem_filter.mp hr
  have := hQ r hm.1 hid
  rw [this] at hm
  cases hm.2

/-- C3: after the coordinator processes `ReportBanned(id)`, and along any
continuation in which no submission re-adds that id (no
`ActivateCredential(id, …)` message), every `GetCredential` reply in the
trace avoids id and `list_active()` never contains a row with that id at
any intermediate point. -/
theorem C3_banned_stays_out (s : SysState) (id : Nat) (me0 : MsgEnv)
    (hmsg : me0.msg = .reportBaned id) (msgs : List MsgEnv)
    (hmsgs : ∀ me ∈ msgs, ∀ c, me.msg ≠ .activateCredential id c) :
    ∀ pre suff, msgs = pre ++ suff →
      (∀ r ∈ CredStore.list_active (runTrace (sysStep s me0).1 pre).1.store,
        r.id ≠ id) ∧
      (∀ e ∈ (runTrace (sysStep s me0).1 pre).2, replyNotId id e) := by
  intro pre suff hsplit
  have hpre : ∀ me ∈ pre, ∀ c, me.msg ≠ ActorMsg.activateCredential id c := by
    intro me hme
    exact hmsgs me (hsplit ▸ List.mem_append_left suff hme)
  have hban := ban_establishes s me0 id hmsg
  have htr := runTrace_preserves id pre (sysStep s me0).1 hban.1 hban.2 hpre
  exact ⟨list_active_excludes _ id htr.2.1, htr.2.2⟩

/-- Concrete system for the C3 witness: credential 1 active in memory and
in the store. -/
def c3sys : SysState :=
  { actor := c2state,
    store := { rows := [{ id := 1, email := none, client_id := "cid",
                          client_secret := "csec", project_id := "proj",
                          scopes := none, refresh_token := "rtok",
                          access_token := none, expiry := 0, status := true }],
               nextId := 2 } }

/-- The `ReportBanned(1)` turn for the witness. -/
def c3ban : MsgEnv :=
  { msg := .reportBaned 1, now := 0, sendOk := fun _ => true }

/-- A follow-up `GetCredential` turn for the witness. -/
def c3get : MsgEnv :=
  { msg := .getCredential "m", now := 0, sendOk := fun _ => true }

/-- C3 witness: after banning credential 1 in the concrete system, the
trace consisting of one `GetCredential("m")` turn keeps id 1 out of
`list_active` and out of every reply. -/
theorem C3_banned_stays_out_witness :
    (∀ r ∈ CredStore.list_active (runTrace (sysStep c3sys c3ban).1 [c3get]).1.store,
      r.id ≠ 1) ∧
    (∀ e ∈ (runTrace (sysStep c3sys c3ban).1 [c3get]).2, replyNotId 1 e) :=
  C3_banned_stays_out c3sys 1 c3ban rfl [c3get]
    (fun me hme c => by
      have h : me = c3get := by simpa using hme
      rw [h]
      intro hcontra
      cases hcontra)
    [c3get] [] rfl

end Pollux
